import Mathlib

/-! xmltvparse: a shallow embedding of `xmltvparse.go`.

The Go package keeps a TV schedule as `map[time.Time][]Programme` (one bucket per
hour), fills it from a decoded XMLTV document (`Load`) and answers two queries
(`PlayingAround`, `PlayingAt`).

The embedding has three layers.

* `GoMap`: Go maps as insertion-ordered association lists with unique keys.
* The part of the Go `time` package the program calls: `Time` values, `Round`,
  `Add`, `Sub`, `Before`, `After`, `Parse` for the chunks that occur in the
  layout constant `xmldateformat`, and `Format` for the layout `15:04`; of
  `fmt`, `Sprintf` with the verbs `%s` and `%d`.
* The program itself: `Programme.String`, `Load`, `aroundTime`, `PlayingAround`,
  `PlayingAt`.

Conventions.

* A Go `string` is read as its list of characters. `Parse` only succeeds on
  values made of ASCII digits, spaces and a sign, where bytes and characters
  coincide, and every failure gives the same result `Time{}`.
* A `time.Time` without monotonic clock reading is fixed by its instant and its
  `*Location`; Go `==` (hence map-key equality) compares both. `Time.ns` is the
  instant in nanoseconds since January 1, year 1, 00:00:00 UTC, as an unbounded
  integer (Go keeps `int64` seconds, which no four-digit year approaches).
  The monotonic reading of a query time is dropped by `Round` and is ignored by
  `Before`/`After` as soon as the other operand has none, which is the case for
  every stored programme, so it is not modelled.
* What the machine decides (the local time zone, the XML decoder) is a
  parameter.
* The `time` package is read as in the current Go releases: `Parse` checks the
  range of a zone offset, and `FixedZone` shares one zone per whole hour.
-/

namespace Xmltvparse

/-! ## Go maps -/

/-- Go `map[K]V`: association list in insertion order; `store` keeps keys unique. -/
abbrev GoMap (K V : Type) := List (K × V)

namespace GoMap

/-- The read `v, ok := m[k]`. -/
def lookup {K V : Type} [DecidableEq K] : GoMap K V → K → Option V
  | [], _ => none
  | (k', v) :: rest, k => if k' = k then some v else lookup rest k

/-- The assignment `m[k] = v`. -/
def store {K V : Type} [DecidableEq K] : GoMap K V → K → V → GoMap K V
  | [], k, v => [(k, v)]
  | (k', v') :: rest, k, v =>
    if k' = k then (k, v) :: rest else (k', v') :: store rest k v

/-- The keys of a map. -/
def keys {K V : Type} (m : GoMap K V) : List K := m.map Prod.fst

/-- All elements of the lists a map holds, entry after entry. -/
def elems {K E : Type} (m : GoMap K (List E)) : List E :=
  (m.map Prod.snd).foldr (fun l acc => l ++ acc) []

end GoMap

/-! ## The `time` package -/

/-- Identity of a `*time.Location`. `utc` is the nil / `&utcLoc` pointer,
`localZone` is `time.Local`, and `fixed off cell` is a zone made by
`FixedZone("", off)`: `cell = none` for the shared per-hour zones,
`cell = some n` for the `n`-th zone allocated on the heap. -/
inductive Location where
  | utc
  | localZone
  | fixed (offset : Int) (cell : Option Nat)
deriving DecidableEq, Repr

/-- A `time.Time` without monotonic reading. -/
structure Time where
  ns : Int
  loc : Location
deriving DecidableEq, Repr

/-- A `time.Duration`, in nanoseconds. -/
abbrev Duration := Int

def Second : Duration := 1000000000
def Minute : Duration := 60 * Second
def Hour : Duration := 60 * Minute

/-- The zero value `Time{}`. -/
def Time.zero : Time := ⟨0, Location.utc⟩

def Time.After (t u : Time) : Bool := decide (u.ns < t.ns)

def Time.Before (t u : Time) : Bool := decide (t.ns < u.ns)

def Time.Add (t : Time) (d : Duration) : Time := ⟨t.ns + d, t.loc⟩

/-- Go `t.Round(d)`: nearest multiple of `d` since the zero time, halfway values
rounding up; `r` is what `div(t, d)` returns, the remainder in `[0, d)`. -/
def Time.Round (t : Time) (d : Duration) : Time :=
  if d ≤ 0 then t
  else
    let r := t.ns % d
    if r + r < d then t.Add (-r) else t.Add (d - r)

def minDuration : Duration := -(2 ^ 63)
def maxDuration : Duration := 2 ^ 63 - 1

/-- Two's-complement reading of an integer as `int64`. -/
def wrap64 (x : Int) : Int := (x + 2 ^ 63) % 2 ^ 64 - 2 ^ 63

/-- Go `t.Sub(u)`: the difference computed in `int64`, saturated when it does not
fit. -/
def Time.Sub (t u : Time) : Duration :=
  let d := wrap64 (t.ns - u.ns)
  if (u.Add d).ns = t.ns then d
  else if t.Before u then minDuration
  else maxDuration

/-- Go `int(d.Minutes())`. `Minutes` is `float64(d / Minute) + float64(d % Minute) / 6e10`
with Go's truncating `/` and `%`, and the conversion to `int` truncates toward
zero. `Load` applies it to the difference of two stored times, which is a
whole number of minutes (then the fraction is zero and the quotient, below
`2 ^ 53`, is exact) or one of the two saturation values of `Sub` (fraction
about 0.28): there the result is the truncated integer quotient. -/
def Duration.minutesInt (d : Duration) : Int := Int.tdiv d Minute

/-! ### Layouts -/

/-- The layout elements `nextStdChunk` can find at a digit or a minus sign. -/
inductive Std where
  | stdLongYear | stdYear
  | stdZeroMonth | stdNumMonth
  | stdZeroDay | stdDay | stdZeroYearDay
  | stdHour | stdZeroHour12 | stdHour12
  | stdZeroMinute | stdMinute
  | stdZeroSecond | stdSecond
  | stdNumTZ | stdNumShortTZ | stdNumColonTZ | stdNumSecondsTz | stdNumColonSecondsTZ
deriving DecidableEq, Repr

/-- Does `s` begin with `p`? (`layout[i:i+n] == p`) -/
def startsWith : List Char → List Char → Bool
  | _, [] => true
  | [], _ :: _ => false
  | c :: s, d :: p => c == d && startsWith s p

/-- The case `'0'` of `nextStdChunk`, `rest` being the layout after the zero:
`01` to `06`, and `002`. -/
def stdAtZero (rest : List Char) : Option (Std × Nat) :=
  match rest with
  | c1 :: rest1 =>
    if c1 = '1' then some (Std.stdZeroMonth, 2)
    else if c1 = '2' then some (Std.stdZeroDay, 2)
    else if c1 = '3' then some (Std.stdZeroHour12, 2)
    else if c1 = '4' then some (Std.stdZeroMinute, 2)
    else if c1 = '5' then some (Std.stdZeroSecond, 2)
    else if c1 = '6' then some (Std.stdYear, 2)
    else if c1 = '0' && startsWith rest1 ['2'] then some (Std.stdZeroYearDay, 3)
    else none
  | [] => none

/-- The case `'-'` of `nextStdChunk`, `rest` being the layout after the sign:
`-070000`, `-07:00:00`, `-0700`, `-07:00`, `-07`, tried in this order. -/
def stdAtMinus (rest : List Char) : Option (Std × Nat) :=
  if startsWith rest ['0', '7', '0', '0', '0', '0'] then some (Std.stdNumSecondsTz, 7)
  else if startsWith rest ['0', '7', ':', '0', '0', ':', '0', '0'] then
    some (Std.stdNumColonSecondsTZ, 9)
  else if startsWith rest ['0', '7', '0', '0'] then some (Std.stdNumTZ, 5)
  else if startsWith rest ['0', '7', ':', '0', '0'] then some (Std.stdNumColonTZ, 6)
  else if startsWith rest ['0', '7'] then some (Std.stdNumShortTZ, 3)
  else none

/-- The `switch c := int(layout[i])` of `nextStdChunk` at the head of `l`: the
element that starts here and its length. The cases for letters, `_`, `Z`, `.`
and `,` are left out; `xmldateformat` has none of these characters. -/
def stdAt (l : List Char) : Option (Std × Nat) :=
  match l with
  | [] => none
  | c :: rest =>
    if c = '0' then stdAtZero rest
    else if c = '1' then
      if startsWith rest ['5'] then some (Std.stdHour, 2) else some (Std.stdNumMonth, 1)
    else if c = '2' then
      if startsWith rest ['0', '0', '6'] then some (Std.stdLongYear, 4) else some (Std.stdDay, 1)
    else if c = '3' then some (Std.stdHour12, 1)
    else if c = '4' then some (Std.stdMinute, 1)
    else if c = '5' then some (Std.stdSecond, 1)
    else if c = '-' then stdAtMinus rest
    else none

/-- Go `nextStdChunk(layout)`: the literal text before the first layout element,
the element (`none` for Go's `0`), and the layout after it. -/
def nextStdChunk : List Char → List Char × Option Std × List Char
  | [] => ([], none, [])
  | c :: rest =>
    match stdAt (c :: rest) with
    | some (std, n) => ([], some std, (c :: rest).drop n)
    | none =>
      let r := nextStdChunk rest
      (c :: r.1, r.2.1, r.2.2)

/-- Go `isDigit(s, i)`. -/
def isDigit (s : List Char) (i : Nat) : Bool :=
  match s.get? i with
  | some c => decide ('0' ≤ c) && decide (c ≤ '9')
  | none => false

/-- The value `int(c - '0')` of a digit. -/
def digitVal (c : Char) : Nat := c.toNat - 48

/-- Go `getnum(s, fixed)`: a one- or two-digit number, two digits when `fixed`. -/
def getnum (s : List Char) (fixed : Bool) : Option (Nat × List Char) :=
  if !isDigit s 0 then none
  else if !isDigit s 1 then
    if fixed then none else some (digitVal (s.getD 0 '0'), s.drop 1)
  else some (digitVal (s.getD 0 '0') * 10 + digitVal (s.getD 1 '0'), s.drop 2)

/-- Go `leadingInt(s)`: the number spelt by the leading digits, and the rest. -/
def leadingInt : List Char → Nat → Nat × List Char
  | [], x => (x, [])
  | c :: s, x =>
    if decide ('0' ≤ c) && decide (c ≤ '9') then leadingInt s (x * 10 + digitVal c)
    else (x, c :: s)

/-- Go `atoi(s)`: an optional sign and digits to the end of `s`. (The overflow test
of `leadingInt` needs nineteen digits; `Parse` passes four characters.) -/
def atoi (s : List Char) : Option Int :=
  let neg := startsWith s ['-']
  let s1 := if startsWith s ['-'] || startsWith s ['+'] then s.drop 1 else s
  let r := leadingInt s1 0
  if r.2.isEmpty then some (if neg then -(r.1 : Int) else (r.1 : Int)) else none

/-- Go `cutspace(s)`. -/
def cutspace : List Char → List Char
  | [] => []
  | c :: s => if c = ' ' then cutspace s else c :: s

/-- Go `skip(value, pre)`: consume the literal text `pre` from `value`. At a space
of `pre` the value must be at its end or at a space; then `cutspace` is
applied to both, which is what `dropping` stands for on the side of `pre`: the
spaces of `pre` that follow are passed over. -/
def skipFrom : List Char → List Char → Bool → Option (List Char)
  | value, [], _ => some value
  | value, p :: pre, dropping =>
    if p = ' ' then
      if dropping then skipFrom value pre true
      else
        match value with
        | v :: _ => if v ≠ ' ' then none else skipFrom (cutspace value) pre true
        | [] => skipFrom (cutspace value) pre true
    else
      match value with
      | v :: rest => if v ≠ p then none else skipFrom rest pre false
      | [] => none

def skip (value pre : List Char) : Option (List Char) := skipFrom value pre false

def isLeap (year : Int) : Bool :=
  year % 4 = 0 && (year % 100 ≠ 0 || year % 400 = 0)

/-- The table `daysBefore`: days of a non-leap year before month `m + 1`. -/
def daysBefore (m : Nat) : Nat :=
  [0, 31, 59, 90, 120, 151, 181, 212, 243, 273, 304, 334, 365].getD m 0

/-- Go `daysIn(m, year)`. -/
def daysIn (m : Nat) (year : Int) : Nat :=
  if m = 2 && isLeap year then 29 else daysBefore m - daysBefore (m - 1)

/-- Go `Date(year, month, day, hour, min, sec, 0, UTC)` for a month in `1..12`, as
seconds since the zero time: whole days of the years before `year` in the
proleptic Gregorian calendar, then the days and seconds inside the year. -/
def dateSec (year : Int) (month day hour min sec : Nat) : Int :=
  let y := year - 1
  let d : Int := 365 * y + y / 4 - y / 100 + y / 400 + daysBefore (month - 1)
    + (if isLeap year && decide (3 ≤ month) then 1 else 0) + ((day : Int) - 1)
  d * 86400 + hour * 3600 + min * 60 + sec

/-- Seconds from the zero time to the Unix epoch (`unixToInternal`). -/
def unixToInternal : Int := 62135596800

/-- Go `FixedZone("", offset)`: one shared zone per whole hour from -12 to +14,
otherwise a new zone; `heap` counts the zones allocated so far. -/
def FixedZone (offset : Int) (heap : Nat) : Location × Nat :=
  let hour := Int.tdiv (Int.tdiv offset 60) 60
  if decide (-12 ≤ hour) && decide (hour ≤ 14) && decide (hour * 60 * 60 = offset) then
    (Location.fixed offset none, heap)
  else (Location.fixed offset (some heap), heap + 1)

/-- The fields `Parse` collects while it walks the layout. -/
structure Fields where
  year : Int := 0
  month : Int := -1
  day : Int := -1
  hour : Nat := 0
  min : Nat := 0
  sec : Nat := 0
  zoneOffset : Int := -1
deriving DecidableEq, Repr

/-- One iteration of the `switch std & stdMask` of `Parse`, for the elements of
`xmldateformat`; `none` is the error return. The elements that the layout does
not use are outside the model and are reported as errors. -/
def parseStd (std : Std) (value : List Char) (f : Fields) : Option (List Char × Fields) :=
  match std with
  | Std.stdLongYear =>
    if value.length < 4 || !isDigit value 0 then none
    else
      match atoi (value.take 4) with
      | some y => some (value.drop 4, { f with year := y })
      | none => none
  | Std.stdZeroMonth =>
    match getnum value true with
    | some (m, rest) => if m ≤ 0 || 12 < m then none else some (rest, { f with month := m })
    | none => none
  | Std.stdZeroDay =>
    match getnum value true with
    | some (d, rest) => some (rest, { f with day := d })
    | none => none
  | Std.stdHour =>
    match getnum value false with
    | some (h, rest) => if 24 ≤ h then none else some (rest, { f with hour := h })
    | none => none
  | Std.stdZeroMinute =>
    match getnum value true with
    | some (m, rest) => if 60 ≤ m then none else some (rest, { f with min := m })
    | none => none
  | Std.stdNumTZ =>
    if value.length < 5 then none
    else
      let sign := value.take 1
      match getnum ((value.drop 1).take 2) true, getnum ((value.drop 3).take 2) true with
      | some (hr, _), some (mm, _) =>
        if 24 < hr || 60 < mm then none
        else
          let off : Int := ((hr : Int) * 60 + mm) * 60
          if sign = ['+'] then some (value.drop 5, { f with zoneOffset := off })
          else if sign = ['-'] then some (value.drop 5, { f with zoneOffset := -off })
          else none
      | _, _ => none
  | _ => none

/-- The loop of `Parse`: one layout element per iteration until the layout is
used up, then the check that no text is left. -/
def parseLoop : Nat → List Char → List Char → Fields → Option Fields
  | 0, _, _, _ => none
  | fuel + 1, layout, value, f =>
    let chunk := nextStdChunk layout
    match skip value chunk.1 with
    | none => none
    | some value1 =>
      match chunk.2.1 with
      | none => if value1.length ≠ 0 then none else some f
      | some std =>
        match parseStd std value1 f with
        | none => none
        | some (value2, f2) => parseLoop fuel chunk.2.2 value2 f2

/-- Go `time.Parse(layout, value)`. `tzlocal` gives the offset of the machine's
local zone, in seconds east of UTC, at a Unix time; `heap` counts the zones
allocated so far. The result is `none` where Go returns `Time{}` and an
error. -/
def Parse (tzlocal : Int → Int) (layout value : List Char) (heap : Nat) : Option Time × Nat :=
  match parseLoop (layout.length + 1) layout value {} with
  | none => (none, heap)
  | some f =>
    if f.day < 1 || f.day > daysIn f.month.toNat f.year then (none, heap)
    else if f.zoneOffset = -1 then
      (some ⟨dateSec f.year f.month.toNat f.day.toNat f.hour f.min f.sec * Second, Location.utc⟩,
        heap)
    else
      let sec := dateSec f.year f.month.toNat f.day.toNat f.hour f.min f.sec - f.zoneOffset
      if tzlocal (sec - unixToInternal) = f.zoneOffset then
        (some ⟨sec * Second, Location.localZone⟩, heap)
      else
        let z := FixedZone f.zoneOffset heap
        (some ⟨sec * Second, z.1⟩, z.2)

/-! ## The program -/

/-- The layout constant of line 9. -/
def xmldateformat : String := "20060102150400 -0700"

structure xmlchannel where
  Id : String
  Name : String
deriving DecidableEq, Repr

structure xmlprogramme where
  Start : String
  Stop : String
  Channel : String
  Title : String
  SubTitle : String
  Description : String
  Credits : String
  Date : String
  Categories : List String
  Rating : String
deriving DecidableEq, Repr

structure xmltv where
  ChannelList : List xmlchannel
  ProgrammeList : List xmlprogramme
deriving DecidableEq, Repr

structure Programme where
  Start : Time
  Stop : Time
  Length : Int
  Channel : String
  Title : String
  SubTitle : String
  Description : String
  Credits : String
  Date : String
  Categories : List String
  Rating : String
deriving DecidableEq, Repr

/-- The zero value `Programme{}` (`var entry Programme`). -/
def Programme.empty : Programme :=
  ⟨Time.zero, Time.zero, 0, "", "", "", "", "", "", [], ""⟩

abbrev TvGrid := GoMap Time (List Programme)

/-- The first result of `time.Parse`, its error dropped (`x, _ = time.Parse(..)`):
the parsed time, or `Time{}` when parsing fails. -/
def parseOrZero (tzlocal : Int → Int) (value : String) (heap : Nat) : Time × Nat :=
  let r := Parse tzlocal xmldateformat.data value.data heap
  (r.1.getD Time.zero, r.2)

/-- The loop `for _, v := range x.ChannelList` of lines 64 to 67. -/
def channelTable (l : List xmlchannel) : GoMap String String :=
  l.foldl (fun m v => m.store v.Id v.Name) []

/-- Lines 73 to 90: the `Programme` made from one record. Both branches of the
`if` of lines 78 to 82 read `channels[v.Channel]`, the empty string when the
key is missing. -/
def mkEntry (tzlocal : Int → Int) (channels : GoMap String String) (v : xmlprogramme)
    (heap : Nat) : Programme × Nat :=
  let start := parseOrZero tzlocal v.Start heap
  let stop := parseOrZero tzlocal v.Stop start.2
  let channel :=
    match channels.lookup v.Channel with
    | some name => name
    | none => (channels.lookup v.Channel).getD ""
  ({ Start := start.1, Stop := stop.1, Length := (stop.1.Sub start.1).minutesInt,
     Channel := channel, Title := v.Title, SubTitle := v.SubTitle,
     Description := v.Description, Credits := v.Credits, Date := v.Date,
     Categories := v.Categories, Rating := v.Rating }, stop.2)

/-- Lines 92 to 97: put `entry` in the bucket of its rounded start. -/
def addEntry (newdata : TvGrid) (entry : Programme) : TvGrid :=
  let bucket := entry.Start.Round Hour
  match newdata.lookup bucket with
  | some l => newdata.store bucket (l ++ [entry])
  | none => newdata.store bucket [entry]

/-- The loop of lines 72 to 98 over the programme records. -/
def loadLoop (tzlocal : Int → Int) (channels : GoMap String String) :
    List xmlprogramme → TvGrid → Nat → TvGrid × Nat
  | [], newdata, heap => (newdata, heap)
  | v :: rest, newdata, heap =>
    let e := mkEntry tzlocal channels v heap
    loadLoop tzlocal channels rest (addEntry newdata e.1) e.2

/-- How a call of `Load` ends. -/
inductive Exit where
  | returnedNil
  | returnedError (err : String)
  | panicDivideByZero
deriving DecidableEq, Repr

/-- The state after a call of `Load`: the grid behind the receiver, how the
call ended, and the zones allocated so far. -/
structure Loaded where
  grid : TvGrid
  exit : Exit
  heap : Nat

/-- Go `(t *TvGrid) Load(s)`. `unmarshal` is `xml.Unmarshal` into a fresh `xmltv`;
`t` is the grid before the call. Line 70 divides by `len(x.ChannelList)`, which
panics when there is no channel record. -/
def Load (unmarshal : List UInt8 → Except String xmltv) (tzlocal : Int → Int)
    (t : TvGrid) (s : List UInt8) (heap : Nat) : Loaded :=
  match unmarshal s with
  | Except.error err => ⟨t, Exit.returnedError err, heap⟩
  | Except.ok x =>
    let channels := channelTable x.ChannelList
    if x.ChannelList.length = 0 then ⟨t, Exit.panicDivideByZero, heap⟩
    else
      let r := loadLoop tzlocal channels x.ProgrammeList [] heap
      ⟨r.1, Exit.returnedNil, r.2⟩

/-- Go `aroundTime(d)`. -/
def aroundTime (d : Time) : List Time :=
  let rnd := d.Round Hour
  [rnd.Add (-2 * Hour), rnd.Add (-1 * Hour), rnd, rnd.Add Hour, rnd.Add (2 * Hour)]

/-- Lines 123 to 127: append `prog` to the list of its channel. -/
def aroundStep (res : GoMap String (List Programme)) (prog : Programme) :
    GoMap String (List Programme) :=
  let res1 :=
    match res.lookup prog.Channel with
    | none => res.store prog.Channel []
    | some _ => res
  res1.store prog.Channel ((res1.lookup prog.Channel).getD [] ++ [prog])

/-- Go `(t TvGrid) PlayingAround(d)`. -/
def PlayingAround (t : TvGrid) (d : Time) : GoMap String (List Programme) :=
  (aroundTime d).foldl
    (fun res h =>
      match t.lookup h with
      | none => res
      | some progs => progs.foldl aroundStep res)
    []

/-- The two maps `res` and `after` of `PlayingAt`. -/
structure AtState where
  res : GoMap String (Programme × Programme)
  after : GoMap String Programme

/-- Lines 143 to 155: one programme of the window. -/
def atStep (d : Time) (st : AtState) (prog : Programme) : AtState :=
  if d.After prog.Start && d.Before prog.Stop then
    { st with res := st.res.store prog.Channel (prog, Programme.empty) }
  else if d.Before prog.Start then
    match st.after.lookup prog.Channel with
    | none => { st with after := st.after.store prog.Channel prog }
    | some a =>
      if prog.Start.Before a.Start then
        { st with after := st.after.store prog.Channel prog }
      else st
  else st

/-- Lines 158 to 162: `res[k][1] = v` for the keys of `after` that `res` has.
Go visits the keys in an unspecified order; each key is met once and touches
only its own entry. -/
def mergeAfter (res : GoMap String (Programme × Programme)) (after : GoMap String Programme) :
    GoMap String (Programme × Programme) :=
  after.foldl
    (fun r kv =>
      match r.lookup kv.1 with
      | some pair => r.store kv.1 (pair.1, kv.2)
      | none => r)
    res

/-- Go `(t TvGrid) PlayingAt(d)`. -/
def PlayingAt (t : TvGrid) (d : Time) : GoMap String (Programme × Programme) :=
  let st := (aroundTime d).foldl
    (fun st h =>
      match t.lookup h with
      | none => st
      | some progs => progs.foldl (atStep d) st)
    (⟨[], []⟩ : AtState)
  mergeAfter st.res st.after

/-- The buckets at the times `hs`, one after the other, a missing bucket
counting as empty. -/
def bucketsAt (t : TvGrid) (hs : List Time) : List Programme :=
  (hs.map (fun h => (t.lookup h).getD [])).foldr (fun l acc => l ++ acc) []

/-- The programmes of the five buckets around `d`, in the order the two queries
visit them. -/
def window (t : TvGrid) (d : Time) : List Programme :=
  bucketsAt t (aroundTime d)

/-- The test of line 143: `d` is strictly between start and stop. -/
def onAir (d : Time) (prog : Programme) : Bool :=
  d.After prog.Start && d.Before prog.Stop

/-- Lines 148 to 154 seen from one channel: the candidate for "next" after
`prog` has been met, `a` being the candidate before. -/
def keepEarlier (a : Option Programme) (prog : Programme) : Option Programme :=
  match a with
  | none => some prog
  | some a0 => if prog.Start.Before a0.Start then some prog else some a0

/-- The entries the loop of lines 72 to 98 makes, in source order. -/
def mkEntries (tzlocal : Int → Int) (channels : GoMap String String) :
    List xmlprogramme → Nat → List Programme
  | [], _ => []
  | v :: rest, heap =>
    (mkEntry tzlocal channels v heap).1 ::
      mkEntries tzlocal channels rest (mkEntry tzlocal channels v heap).2

/-- The programmes of channel `c` in the window that start strictly after `d`
(the test of line 147), in window order. -/
def upcoming (t : TvGrid) (d : Time) (c : String) : List Programme :=
  (window t d).filter (fun p => decide (p.Channel = c) && d.Before p.Start)

/-! ## Sample inputs -/

/-- A programme record with the descriptive fields left empty. -/
def sampleRecord (start stop channel title : String) : xmlprogramme :=
  ⟨start, stop, channel, title, "", "", "", "", [], ""⟩

/-- One channel and three programmes of 15 January 2023: 13:30 to 14:05,
14:10 to 14:40 and 14:05 to 14:10, in this order. -/
def sampleDoc : xmltv :=
  ⟨[⟨"1", "BBC One"⟩],
    [sampleRecord "20230115133000 +0000" "20230115140500 +0000" "1" "News",
     sampleRecord "20230115141000 +0000" "20230115144000 +0000" "1" "Film",
     sampleRecord "20230115140500 +0000" "20230115141000 +0000" "1" "Weather"]⟩

/-- A decoder that accepts every input and yields `x`. -/
def decodeAs (x : xmltv) : List UInt8 → Except String xmltv := fun _ => Except.ok x

/-- A machine whose local zone is UTC all year. -/
def localUTC : Int → Int := fun _ => 0

/-- The grid `Load` builds from `sampleDoc`. -/
def sampleGrid : TvGrid := (Load (decodeAs sampleDoc) localUTC [] [] 0).grid

/-- The programmes of `sampleDoc` as `Load` converts them. -/
def sampleEntries : List Programme :=
  mkEntries localUTC (channelTable sampleDoc.ChannelList) sampleDoc.ProgrammeList 0

def sampleNews : Programme := sampleEntries.getD 0 Programme.empty
def sampleFilm : Programme := sampleEntries.getD 1 Programme.empty
def sampleWeather : Programme := sampleEntries.getD 2 Programme.empty

/-- The instant 15 January 2023, 14:00:00 UTC, read on the local clock. -/
def sampleTime : Time := ⟨63809388000 * Second, Location.localZone⟩

/-- A document without channel records. -/
def noChannelDoc : xmltv :=
  ⟨[], [sampleRecord "20230115140000 +0000" "20230115143000 +0000" "1" "News"]⟩

/-- One programme whose start has 30 in the seconds field. -/
def secondsDoc : xmltv :=
  ⟨[⟨"1", "BBC One"⟩],
    [sampleRecord "20230115140030 +0000" "20230115143000 +0000" "1" "News"]⟩

/-- The timestamp of 15 January 2023, 14:00 and `n` seconds, zone `+0000`, in
the format `YYYYMMDDHHMMSS ±ZZZZ` (for `n` below 100). -/
def withSeconds (n : Nat) : List Char :=
  "202301151400".data ++ [Char.ofNat (48 + n / 10), Char.ofNat (48 + n % 10)] ++ " +0000".data

/-- One programme that comes up at 14:10. -/
def upcomingDoc : xmltv :=
  ⟨[⟨"1", "BBC One"⟩],
    [sampleRecord "20230115141000 +0000" "20230115144000 +0000" "1" "Film"]⟩

/-- One programme from 11:00 to 15:00. -/
def longDoc : xmltv :=
  ⟨[⟨"1", "BBC One"⟩],
    [sampleRecord "20230115110000 +0000" "20230115150000 +0000" "1" "Cricket"]⟩

/-- What `Parse` keeps true of the fields it collects: the seconds stay zero, and
a zone offset, once set, is in whole minutes. -/
def Fields.whole (f : Fields) : Prop :=
  f.sec = 0 ∧ (f.zoneOffset = -1 ∨ f.zoneOffset % 60 = 0)

/-! ## Formatting (`Programme.String`) -/

/-- Seconds east of UTC that a location shows at Unix time `unix`. -/
def Location.offsetAt (tzlocal : Int → Int) (loc : Location) (unix : Int) : Int :=
  match loc with
  | Location.utc => 0
  | Location.localZone => tzlocal unix
  | Location.fixed off _ => off

/-- Go `t.abs()`, counted from the zero time: the seconds of `t` moved by the
offset of its location. -/
def Time.clockSec (tzlocal : Int → Int) (t : Time) : Int :=
  t.ns / Second + t.loc.offsetAt tzlocal (t.ns / Second - unixToInternal)

/-- The hour (0 to 23) on the clock of the location of `t`. -/
def Time.clockHour (tzlocal : Int → Int) (t : Time) : Nat :=
  (t.clockSec tzlocal % 86400 / 3600).toNat

/-- The minute (0 to 59) on the clock of the location of `t`. -/
def Time.clockMinute (tzlocal : Int → Int) (t : Time) : Nat :=
  (t.clockSec tzlocal % 3600 / 60).toNat

/-- Go `appendInt(b, x, width)` for `x ≥ 0`: the decimal digits of `x`, filled
up with zeros on the left to `width` characters. -/
def appendInt (x width : Nat) : List Char :=
  List.replicate (width - (Nat.toDigits 10 x).length) '0' ++ Nat.toDigits 10 x

/-- The `switch std & stdMask` of `AppendFormat` for the two elements of the
layout `15:04`; `none` for an element outside the model. -/
def formatStd (std : Std) (hour min : Nat) : Option (List Char) :=
  match std with
  | Std.stdHour => some (appendInt hour 2)
  | Std.stdZeroMinute => some (appendInt min 2)
  | _ => none

/-- The loop of `AppendFormat`: the text before each layout element, then the
element. -/
def formatLoop : Nat → List Char → Nat → Nat → Option (List Char)
  | 0, _, _, _ => none
  | fuel + 1, layout, hour, min =>
    let chunk := nextStdChunk layout
    match chunk.2.1 with
    | none => some chunk.1
    | some std =>
      match formatStd std hour min, formatLoop fuel chunk.2.2 hour min with
      | some a, some b => some (chunk.1 ++ (a ++ b))
      | _, _ => none

/-- Go `t.Format(layout)` for layouts made of text, `15` and `04`. -/
def Time.Format (tzlocal : Int → Int) (t : Time) (layout : List Char) : List Char :=
  (formatLoop (layout.length + 1) layout (t.clockHour tzlocal) (t.clockMinute tzlocal)).getD []

/-- An operand of `Sprintf`. -/
inductive Arg where
  | str (s : List Char)
  | int (n : Int)

/-- Go `fmt.Sprintf(format, args...)` for the plain verbs `%s` on a string and
`%d` on an int; every other character is copied. Flags, other verbs and
operands of the wrong type are outside the model. -/
def sprintf : List Char → List Arg → List Char
  | [], _ => []
  | c :: rest, args =>
    if c = '%' then
      match rest, args with
      | v :: rest1, Arg.str s :: args1 =>
        if v = 's' then s ++ sprintf rest1 args1 else c :: v :: sprintf rest1 args
      | v :: rest1, Arg.int n :: args1 =>
        if v = 'd' then (toString n).data ++ sprintf rest1 args1
        else c :: v :: sprintf rest1 args
      | v :: rest1, [] => c :: v :: sprintf rest1 []
      | [], _ => [c]
    else c :: sprintf rest args

/-- The method `(p Programme) String()` of lines 50 to 52. -/
def Programme.String (tzlocal : Int → Int) (p : Programme) : String :=
  String.mk (sprintf "(%s) %s: %s - %dm".data
    [Arg.str p.Channel.data, Arg.str (p.Start.Format tzlocal "15:04".data),
     Arg.str p.Title.data, Arg.int p.Length])

/-! ## Zones as values -/

/-- Move the cell of an allocated zone by `k`. -/
def Location.shift (k : Nat) : Location → Location
  | Location.fixed off (some n) => Location.fixed off (some (n + k))
  | Location.fixed off none => Location.fixed off none
  | Location.utc => Location.utc
  | Location.localZone => Location.localZone

/-- A location as a value, that is, without the cell an allocated zone lives in. -/
def Location.forget : Location → Location
  | Location.fixed off _ => Location.fixed off none
  | Location.utc => Location.utc
  | Location.localZone => Location.localZone

def Time.shift (k : Nat) (t : Time) : Time := ⟨t.ns, t.loc.shift k⟩

def Time.forget (t : Time) : Time := ⟨t.ns, t.loc.forget⟩

def Programme.shift (k : Nat) (p : Programme) : Programme :=
  { p with Start := p.Start.shift k, Stop := p.Stop.shift k }

def Programme.forget (p : Programme) : Programme :=
  { p with Start := p.Start.forget, Stop := p.Stop.forget }

/-- A grid with every allocated zone moved by `k` cells. -/
def shiftGrid (k : Nat) (g : TvGrid) : TvGrid :=
  g.map (fun kv => (kv.1.shift k, kv.2.map (Programme.shift k)))

/-- The field values of a grid, bucket by bucket in the order of the keys: keys
and programmes with their zones read as values. -/
def forgetGrid (g : TvGrid) : List (Time × List Programme) :=
  g.map (fun kv => (kv.1.forget, kv.2.map Programme.forget))

/-! ## More sample inputs -/

/-- A decoder that rejects every input. -/
def decodeFails : List UInt8 → Except String xmltv := fun _ => Except.error "unexpected EOF"

/-- Two channels with the same identifier, and programmes on "1" and on "99". -/
def aliasDoc : xmltv :=
  ⟨[⟨"1", "BBC 1"⟩, ⟨"2", "ITV"⟩, ⟨"1", "BBC One"⟩],
    [sampleRecord "20230115140000 +0000" "20230115143000 +0000" "1" "News",
     sampleRecord "20230115140000 +0000" "20230115143000 +0000" "99" "Quiz"]⟩

/-- Two programmes of one channel that are both on air at 14:00. -/
def overlapDoc : xmltv :=
  ⟨[⟨"1", "BBC One"⟩],
    [sampleRecord "20230115133000 +0000" "20230115143000 +0000" "1" "Film",
     sampleRecord "20230115134500 +0000" "20230115141500 +0000" "1" "News"]⟩

/-- A programme from 1 January of year 1 to 31 December 9999. -/
def farApartDoc : xmltv :=
  ⟨[⟨"1", "BBC One"⟩],
    [sampleRecord "00010101000000 +0000" "99991231235900 +0000" "1" "Test card"]⟩

/-- A start that is no timestamp, a stop that is one; then a record with the
same stop and a good start. -/
def malformedDoc : xmltv :=
  ⟨[⟨"1", "BBC One"⟩],
    [sampleRecord "2023-01-15 14:00" "20230115143000 +0000" "1" "News",
     sampleRecord "20230115140000 +0000" "yesterday" "1" "Film"]⟩

/-- A programme at 14:10 of zone `+0100`, which is 13:10 UTC. -/
def zoneDoc : xmltv :=
  ⟨[⟨"1", "BBC One"⟩],
    [sampleRecord "20230115141000 +0100" "20230115144000 +0100" "1" "Film"]⟩

/-- A programme with zone `+0530`, for which `Parse` allocates zones. -/
def allocDoc : xmltv :=
  ⟨[⟨"1", "BBC One"⟩],
    [sampleRecord "20230115193000 +0530" "20230115200000 +0530" "1" "News",
     sampleRecord "20230115193000 +0530" "20230115200000 +0530" "1" "Film"]⟩

/-- The programme of the spec's example: "BBC One", 20:00 UTC, "News",
30 minutes. -/
def newsAtEight : Programme :=
  { Start := ⟨63809409600 * Second, Location.utc⟩,
    Stop := ⟨63809411400 * Second, Location.utc⟩,
    Length := 30, Channel := "BBC One", Title := "News", SubTitle := "",
    Description := "", Credits := "", Date := "", Categories := [], Rating := "" }

/-- The state after `allocDoc` has been loaded into an empty grid. -/
def allocOnce : Loaded := Load (decodeAs allocDoc) localUTC [] [] 0

/-- The state after `allocDoc` has been loaded a second time, right after
`allocOnce`. -/
def allocTwice : Loaded := Load (decodeAs allocDoc) localUTC allocOnce.grid [] allocOnce.heap

/-- A film at 13:10 UTC whose start carries the zone `+0100`. -/
def filmPlusOne : Programme :=
  { newsAtEight with
    Start := ⟨63809385000 * Second, Location.fixed 3600 none⟩, Title := "Film", Length := 90 }

/-- A quiz at 13:10 UTC whose start carries the local zone, with a length below
zero. -/
def quizLocal : Programme :=
  { newsAtEight with
    Start := ⟨63809385000 * Second, Location.localZone⟩, Title := "Quiz", Length := -5 }

/-! ## The loop of `Parse` ends before its fuel does -/

theorem stdAtZero_pos (rest : List Char) (r : Std × Nat) (h : stdAtZero rest = some r) :
    1 ≤ r.2 := by
  cases rest with
  | nil => cases h
  | cons c1 rest1 =>
    simp only [stdAtZero] at h
    split_ifs at h
    all_goals (cases h; decide)

theorem stdAtMinus_pos (rest : List Char) (r : Std × Nat) (h : stdAtMinus rest = some r) :
    1 ≤ r.2 := by
  simp only [stdAtMinus] at h
  split_ifs at h
  all_goals (cases h; decide)

theorem stdAt_pos (l : List Char) (std : Std) (n : Nat) (h : stdAt l = some (std, n)) :
    1 ≤ n := by
  cases l with
  | nil => cases h
  | cons c rest =>
    simp only [stdAt] at h
    split_ifs at h
    all_goals first
      | exact stdAtZero_pos rest (std, n) h
      | exact stdAtMinus_pos rest (std, n) h
      | (cases h; decide)

theorem nextStdChunk_shorter (layout : List Char) (std : Std)
    (h : (nextStdChunk layout).2.1 = some std) :
    (nextStdChunk layout).2.2.length < layout.length := by
  induction layout with
  | nil => simp [nextStdChunk] at h
  | cons c rest ih =>
    cases hs : stdAt (c :: rest) with
    | none =>
      simp only [nextStdChunk, hs] at h ⊢
      have := ih h
      simp only [List.length_cons]
      omega
    | some r =>
      obtain ⟨std1, n⟩ := r
      have hn := stdAt_pos _ _ _ hs
      simp only [nextStdChunk, hs, List.length_drop, List.length_cons]
      omega

/-- More fuel than the layout has characters never changes what the loop of
`Parse` returns: the `none` of `parseLoop` is always a parse error. -/
theorem parseLoop_fuel (n m : Nat) (layout value : List Char) (f : Fields)
    (hn : layout.length < n) (hm : layout.length < m) :
    parseLoop n layout value f = parseLoop m layout value f := by
  induction n generalizing m layout value f with
  | zero => omega
  | succ n ih =>
    cases m with
    | zero => omega
    | succ m =>
      simp only [parseLoop]
      cases hsk : skip value (nextStdChunk layout).1 with
      | none => rfl
      | some value1 =>
        cases hstd : (nextStdChunk layout).2.1 with
        | none => rfl
        | some std =>
          have hlt := nextStdChunk_shorter layout std hstd
          cases hp : parseStd std value1 f with
          | none => simp only [hp]
          | some r =>
            obtain ⟨value2, f2⟩ := r
            simp only [hp]
            exact ih m (nextStdChunk layout).2.2 value2 f2 (by omega) (by omega)

/-! ## Lemmas on Go maps -/

namespace GoMap

theorem lookup_store_self {K V : Type} [DecidableEq K] (m : GoMap K V) (k : K) (v : V) :
    lookup (store m k v) k = some v := by
  induction m with
  | nil => simp [store, lookup]
  | cons kv rest ih =>
    obtain ⟨k', v'⟩ := kv
    by_cases h : k' = k
    · simp [store, lookup, h]
    · simp [store, lookup, h, ih]

theorem lookup_store_ne {K V : Type} [DecidableEq K] (m : GoMap K V) (k k' : K) (v : V)
    (hne : k ≠ k') : lookup (store m k v) k' = lookup m k' := by
  induction m with
  | nil => simp [store, lookup, hne]
  | cons kv rest ih =>
    obtain ⟨k0, v0⟩ := kv
    by_cases h : k0 = k
    · subst h
      simp [store, lookup, hne]
    · by_cases h2 : k0 = k'
      · subst h2
        simp [store, lookup, h]
      · simp [store, lookup, h, h2, ih]

theorem lookup_eq_none_iff {K V : Type} [DecidableEq K] (m : GoMap K V) (k : K) :
    lookup m k = none ↔ k ∉ keys m := by
  induction m with
  | nil => simp [lookup, keys]
  | cons kv rest ih =>
    obtain ⟨k0, v0⟩ := kv
    by_cases h : k0 = k
    · simp [lookup, keys, h]
    · have h' : ¬ k = k0 := fun e => h e.symm
      simp only [keys] at ih
      simp [lookup, keys, h, h', ih]

theorem keys_store {K V : Type} [DecidableEq K] (m : GoMap K V) (k : K) (v : V) :
    keys (store m k v) = if k ∈ keys m then keys m else keys m ++ [k] := by
  induction m with
  | nil => simp [store, keys]
  | cons kv rest ih =>
    obtain ⟨k0, v0⟩ := kv
    simp only [keys] at ih
    by_cases h : k0 = k
    · subst h
      simp [store, keys]
    · have h' : ¬ k = k0 := fun e => h e.symm
      by_cases hm : k ∈ List.map Prod.fst rest
      · simp [store, keys, h, h', hm, ih]
      · simp [store, keys, h, h', hm, ih]

theorem nodup_store {K V : Type} [DecidableEq K] (m : GoMap K V) (k : K) (v : V)
    (hm : (keys m).Nodup) : (keys (store m k v)).Nodup := by
  rw [keys_store]
  by_cases h : k ∈ keys m
  · simpa [h] using hm
  · simp only [h, if_false]
    rw [List.nodup_append]
    refine ⟨hm, List.nodup_singleton k, ?_⟩
    intro a ha hb
    simp only [List.mem_singleton] at hb
    subst hb
    exact h ha

theorem lookup_of_mem {K V : Type} [DecidableEq K] (m : GoMap K V) (k : K) (v : V)
    (hm : (keys m).Nodup) (hkv : (k, v) ∈ m) : lookup m k = some v := by
  induction m with
  | nil => simp at hkv
  | cons kv rest ih =>
    obtain ⟨k0, v0⟩ := kv
    simp only [keys, List.map_cons, List.nodup_cons] at hm
    rcases List.mem_cons.mp hkv with heq | hrest
    · cases heq
      simp [lookup]
    · have hk : k ∈ List.map Prod.fst rest := List.mem_map.mpr ⟨(k, v), hrest, rfl⟩
      have hne : ¬ k0 = k := fun e => hm.1 (e ▸ hk)
      simp only [lookup, hne, if_false]
      exact ih hm.2 hrest

theorem mem_of_lookup {K V : Type} [DecidableEq K] (m : GoMap K V) (k : K) (v : V)
    (h : lookup m k = some v) : (k, v) ∈ m := by
  induction m with
  | nil => simp [lookup] at h
  | cons kv rest ih =>
    obtain ⟨k0, v0⟩ := kv
    by_cases hk : k0 = k
    · simp only [lookup, hk, if_true, Option.some.injEq] at h
      subst hk
      subst h
      exact List.mem_cons_self _ _
    · simp only [lookup, hk, if_false] at h
      exact List.mem_cons_of_mem _ (ih h)

end GoMap

theorem window_eq (t : TvGrid) (d : Time) : window t d = bucketsAt t (aroundTime d) := rfl

/-- Walking the buckets and skipping the missing ones is one pass over their
concatenation. -/
theorem foldl_buckets {S : Type} (f : S → Programme → S) (t : TvGrid) (hs : List Time) (init : S) :
    hs.foldl (fun st h =>
      match t.lookup h with
      | none => st
      | some progs => progs.foldl f st) init = (bucketsAt t hs).foldl f init := by
  induction hs generalizing init with
  | nil => rfl
  | cons h rest ih =>
    simp only [List.foldl_cons, bucketsAt, List.map_cons, List.foldr_cons, List.foldl_append]
    cases hl : t.lookup h with
    | none => simpa [bucketsAt] using ih init
    | some progs => simpa [bucketsAt] using ih (progs.foldl f init)

theorem PlayingAround_eq (t : TvGrid) (d : Time) :
    PlayingAround t d = (window t d).foldl aroundStep [] := by
  unfold PlayingAround
  rw [window_eq]
  exact foldl_buckets aroundStep t (aroundTime d) []

theorem lookup_aroundStep (res : GoMap String (List Programme)) (p : Programme) (c : String) :
    (aroundStep res p).lookup c =
      if p.Channel = c then some ((res.lookup c).getD [] ++ [p]) else res.lookup c := by
  unfold aroundStep
  by_cases h : p.Channel = c
  · subst h
    cases hl : GoMap.lookup res p.Channel with
    | none => simp [GoMap.lookup_store_self]
    | some l => simp [GoMap.lookup_store_self, hl]
  · simp only [h, if_false]
    rw [GoMap.lookup_store_ne _ _ _ _ h]
    cases hl : GoMap.lookup res p.Channel with
    | none => simp [GoMap.lookup_store_ne _ _ _ _ h]
    | some l => simp

theorem lookup_foldl_aroundStep (l : List Programme) (res : GoMap String (List Programme))
    (c : String) :
    (l.foldl aroundStep res).lookup c =
      if l.filter (fun p => decide (p.Channel = c)) = [] then res.lookup c
      else some ((res.lookup c).getD [] ++ l.filter (fun p => decide (p.Channel = c))) := by
  induction l generalizing res with
  | nil => simp
  | cons p rest ih =>
    rw [List.foldl_cons, ih, lookup_aroundStep]
    by_cases h : p.Channel = c
    · simp [h, List.filter_cons]
    · simp [h, List.filter_cons]

theorem nodup_aroundStep (res : GoMap String (List Programme)) (p : Programme)
    (h : (GoMap.keys res).Nodup) : (GoMap.keys (aroundStep res p)).Nodup := by
  unfold aroundStep
  apply GoMap.nodup_store
  cases hl : GoMap.lookup res p.Channel with
  | none => exact GoMap.nodup_store _ _ _ h
  | some l => exact h

theorem nodup_foldl_aroundStep (l : List Programme) (res : GoMap String (List Programme))
    (h : (GoMap.keys res).Nodup) : (GoMap.keys (l.foldl aroundStep res)).Nodup := by
  induction l generalizing res with
  | nil => exact h
  | cons p rest ih => exact ih _ (nodup_aroundStep res p h)

theorem PlayingAround_nodup (t : TvGrid) (d : Time) :
    (GoMap.keys (PlayingAround t d)).Nodup := by
  rw [PlayingAround_eq]
  exact nodup_foldl_aroundStep _ _ (by simp [GoMap.keys])

/-! ## Lemmas on `PlayingAt` -/

theorem PlayingAt_eq (t : TvGrid) (d : Time) :
    PlayingAt t d =
      mergeAfter ((window t d).foldl (atStep d) ⟨[], []⟩).res
        ((window t d).foldl (atStep d) ⟨[], []⟩).after := by
  unfold PlayingAt
  simp only []
  rw [foldl_buckets (atStep d) t (aroundTime d) ⟨[], []⟩]
  rfl

theorem not_before_of_onAir (d : Time) (p : Programme) (h : onAir d p = true) :
    d.Before p.Start = false := by
  simp only [onAir, Time.After, Time.Before, Bool.and_eq_true, decide_eq_true_eq] at h
  simp only [Time.Before, decide_eq_false_iff_not]
  omega

theorem res_atStep (d : Time) (st : AtState) (p : Programme) (c : String) :
    (atStep d st p).res.lookup c =
      if p.Channel = c ∧ onAir d p = true then some (p, Programme.empty)
      else st.res.lookup c := by
  unfold atStep
  by_cases hon : onAir d p = true
  · have hon' : (d.After p.Start && d.Before p.Stop) = true := hon
    simp only [hon', if_true, hon, and_true]
    by_cases hc : p.Channel = c
    · subst hc
      simp [GoMap.lookup_store_self]
    · simp [hc, GoMap.lookup_store_ne _ _ _ _ hc]
  · have hon' : ¬ (d.After p.Start && d.Before p.Stop) = true := hon
    simp only [hon', if_false, hon, and_false]
    by_cases hb : d.Before p.Start = true
    · simp only [hb, if_true]
      cases hl : GoMap.lookup st.after p.Channel with
      | none => simp
      | some a =>
        by_cases hlt : p.Start.Before a.Start = true
        · simp [hlt]
        · simp [hlt]
    · simp [hb]

theorem after_atStep (d : Time) (st : AtState) (p : Programme) (c : String) :
    (atStep d st p).after.lookup c =
      if p.Channel = c ∧ d.Before p.Start = true then keepEarlier (st.after.lookup c) p
      else st.after.lookup c := by
  unfold atStep
  by_cases hon : onAir d p = true
  · have hon' : (d.After p.Start && d.Before p.Stop) = true := hon
    have hb := not_before_of_onAir d p hon
    simp [hon', hb]
  · have hon' : ¬ (d.After p.Start && d.Before p.Stop) = true := hon
    simp only [hon', if_false]
    by_cases hb : d.Before p.Start = true
    · simp only [hb, if_true, and_true]
      by_cases hc : p.Channel = c
      · subst hc
        cases hl : GoMap.lookup st.after p.Channel with
        | none => simp [keepEarlier, GoMap.lookup_store_self]
        | some a =>
          by_cases hlt : p.Start.Before a.Start = true
          · simp [keepEarlier, hlt, GoMap.lookup_store_self]
          · simp [keepEarlier, hlt, hl]
      · simp only [hc, if_false]
        cases hl : GoMap.lookup st.after p.Channel with
        | none => simp [GoMap.lookup_store_ne _ _ _ _ hc]
        | some a =>
          by_cases hlt : p.Start.Before a.Start = true
          · simp [hlt, GoMap.lookup_store_ne _ _ _ _ hc]
          · simp [hlt]
    · simp [hb]

theorem res_foldl_atStep (d : Time) (l : List Programme) (st : AtState) (c : String) :
    (l.foldl (atStep d) st).res.lookup c =
      (l.filter (fun p => decide (p.Channel = c) && onAir d p)).foldl
        (fun _ p => some (p, Programme.empty)) (st.res.lookup c) := by
  induction l generalizing st with
  | nil => rfl
  | cons p rest ih =>
    rw [List.foldl_cons, ih, res_atStep]
    by_cases h : p.Channel = c ∧ onAir d p = true
    · simp [h, List.filter_cons]
    · have h' : (decide (p.Channel = c) && onAir d p) = false := by
        simpa using h
      simp [h, h', List.filter_cons]

theorem after_foldl_atStep (d : Time) (l : List Programme) (st : AtState) (c : String) :
    (l.foldl (atStep d) st).after.lookup c =
      (l.filter (fun p => decide (p.Channel = c) && d.Before p.Start)).foldl
        keepEarlier (st.after.lookup c) := by
  induction l generalizing st with
  | nil => rfl
  | cons p rest ih =>
    rw [List.foldl_cons, ih, after_atStep]
    by_cases h : p.Channel = c ∧ d.Before p.Start = true
    · simp [h, List.filter_cons]
    · have h' : (decide (p.Channel = c) && d.Before p.Start) = false := by
        simpa using h
      simp [h, h', List.filter_cons]

theorem nodup_after_atStep (d : Time) (st : AtState) (p : Programme)
    (h : (GoMap.keys st.after).Nodup) : (GoMap.keys (atStep d st p).after).Nodup := by
  unfold atStep
  split
  · exact h
  · split
    · split
      · exact GoMap.nodup_store _ _ _ h
      · split
        · exact GoMap.nodup_store _ _ _ h
        · exact h
    · exact h

theorem nodup_after_foldl (d : Time) (l : List Programme) (st : AtState)
    (h : (GoMap.keys st.after).Nodup) :
    (GoMap.keys (l.foldl (atStep d) st).after).Nodup := by
  induction l generalizing st with
  | nil => exact h
  | cons p rest ih => exact ih _ (nodup_after_atStep d st p h)

theorem nodup_res_atStep (d : Time) (st : AtState) (p : Programme)
    (h : (GoMap.keys st.res).Nodup) : (GoMap.keys (atStep d st p).res).Nodup := by
  unfold atStep
  split
  · exact GoMap.nodup_store _ _ _ h
  · split
    · split
      · exact h
      · split
        · exact h
        · exact h
    · exact h

theorem nodup_res_foldl (d : Time) (l : List Programme) (st : AtState)
    (h : (GoMap.keys st.res).Nodup) :
    (GoMap.keys (l.foldl (atStep d) st).res).Nodup := by
  induction l generalizing st with
  | nil => exact h
  | cons p rest ih => exact ih _ (nodup_res_atStep d st p h)

theorem lookup_mergeAfter (after : GoMap String Programme)
    (res : GoMap String (Programme × Programme)) (c : String)
    (h : (GoMap.keys after).Nodup) :
    (mergeAfter res after).lookup c =
      match res.lookup c with
      | none => none
      | some pair => some (pair.1, (after.lookup c).getD pair.2) := by
  induction after generalizing res with
  | nil =>
    cases hl : GoMap.lookup res c with
    | none => simp [mergeAfter, hl]
    | some pair => simp [mergeAfter, hl, GoMap.lookup]
  | cons kv rest ih =>
    obtain ⟨k, v⟩ := kv
    simp only [GoMap.keys, List.map_cons, List.nodup_cons] at h
    have hrest : GoMap.lookup rest k = none := (GoMap.lookup_eq_none_iff rest k).mpr h.1
    unfold mergeAfter at ih ⊢
    rw [List.foldl_cons, ih _ h.2]
    by_cases hk : k = c
    · subst hk
      cases hl : GoMap.lookup res k with
      | none => simp [hl]
      | some pair => simp [hl, GoMap.lookup_store_self, hrest, GoMap.lookup]
    · cases hl : GoMap.lookup res k with
      | none => simp [hl, GoMap.lookup, hk]
      | some pair =>
        simp only [hl, GoMap.lookup_store_ne _ _ _ _ hk, GoMap.lookup, hk, if_false]

/-- The entry of channel `c` in `PlayingAt`, read off the window. -/
theorem lookup_PlayingAt (t : TvGrid) (d : Time) (c : String) :
    (PlayingAt t d).lookup c =
      match ((window t d).filter (fun p => decide (p.Channel = c) && onAir d p)).foldl
          (fun _ p => some (p, Programme.empty)) none with
      | none => none
      | some pair =>
        some (pair.1,
          (((window t d).filter (fun p => decide (p.Channel = c) && d.Before p.Start)).foldl
            keepEarlier none).getD pair.2) := by
  rw [PlayingAt_eq, lookup_mergeAfter _ _ _ (nodup_after_foldl d _ _ (by simp [GoMap.keys])),
    res_foldl_atStep, after_foldl_atStep]
  rfl

theorem PlayingAt_nodup (t : TvGrid) (d : Time) : (GoMap.keys (PlayingAt t d)).Nodup := by
  rw [PlayingAt_eq]
  unfold mergeAfter
  generalize ((window t d).foldl (atStep d) ⟨[], []⟩).after = after
  have hres : (GoMap.keys ((window t d).foldl (atStep d) ⟨[], []⟩).res).Nodup :=
    nodup_res_foldl d _ _ (by simp [GoMap.keys])
  revert hres
  generalize ((window t d).foldl (atStep d) ⟨[], []⟩).res = res
  intro hres
  induction after generalizing res with
  | nil => exact hres
  | cons kv rest ih =>
    rw [List.foldl_cons]
    apply ih
    cases hl : GoMap.lookup res kv.1 with
    | none => exact hres
    | some pair => exact GoMap.nodup_store _ _ _ hres

/-! ## Lemmas on the two folds of `PlayingAt` -/

theorem foldl_last (l : List Programme) (init : Option (Programme × Programme)) :
    l.foldl (fun _ p => some (p, Programme.empty)) init =
      match l.getLast? with
      | none => init
      | some p => some (p, Programme.empty) := by
  induction l generalizing init with
  | nil => rfl
  | cons p rest ih =>
    rw [List.foldl_cons, ih]
    cases rest with
    | nil => rfl
    | cons q rest2 =>
      rw [List.getLast?_cons_cons]
      cases h : (q :: rest2).getLast? with
      | none => simp at h
      | some x => rfl

theorem keepEarlier_first (l : List Programme) (hl : l ≠ []) :
    ∃ n l1 l2, l.foldl keepEarlier none = some n ∧ l = l1 ++ n :: l2 ∧
      (∀ q ∈ l1, n.Start.ns < q.Start.ns) ∧ (∀ q ∈ l2, n.Start.ns ≤ q.Start.ns) := by
  induction l using List.reverseRecOn with
  | nil => exact absurd rfl hl
  | append_singleton init p ih =>
    rw [List.foldl_append, List.foldl_cons, List.foldl_nil]
    by_cases hinit : init = []
    · subst hinit
      exact ⟨p, [], [], by simp [keepEarlier], by simp, by simp, by simp⟩
    · obtain ⟨m, l1, l2, hm, hsplit, h1, h2⟩ := ih hinit
      rw [hm]
      by_cases hlt : p.Start.ns < m.Start.ns
      · refine ⟨p, init, [], by simp [keepEarlier, Time.Before, hlt], by simp, ?_, by simp⟩
        intro q hq
        rw [hsplit] at hq
        rcases List.mem_append.mp hq with hq1 | hq2
        · have := h1 q hq1
          omega
        · rcases List.mem_cons.mp hq2 with hq3 | hq4
          · subst hq3
            exact hlt
          · have := h2 q hq4
            omega
      · refine ⟨m, l1, l2 ++ [p], by simp [keepEarlier, Time.Before, hlt], by simp [hsplit],
          h1, ?_⟩
        intro q hq
        rcases List.mem_append.mp hq with hq1 | hq2
        · exact h2 q hq1
        · simp only [List.mem_singleton] at hq2
          subst hq2
          omega

/-! ## Lemmas on `PlayingAround` as a multiset -/

theorem elems_store_new {K E : Type} [DecidableEq K] (m : GoMap K (List E)) (k : K) (v : List E)
    (h : m.lookup k = none) : GoMap.elems (m.store k v) = GoMap.elems m ++ v := by
  induction m with
  | nil => simp [GoMap.store, GoMap.elems]
  | cons kv rest ih =>
    obtain ⟨k0, v0⟩ := kv
    by_cases hk : k0 = k
    · simp [GoMap.lookup, hk] at h
    · simp only [GoMap.lookup, hk, if_false] at h
      have := ih h
      simp only [GoMap.elems] at this
      simp [GoMap.store, GoMap.elems, hk, this]

theorem elems_store_append {K E : Type} [DecidableEq K] (m : GoMap K (List E)) (k : K)
    (old : List E) (e : E) (h : m.lookup k = some old) :
    (GoMap.elems (m.store k (old ++ [e]))).Perm (GoMap.elems m ++ [e]) := by
  induction m with
  | nil => simp [GoMap.lookup] at h
  | cons kv rest ih =>
    obtain ⟨k0, v0⟩ := kv
    by_cases hk : k0 = k
    · simp only [GoMap.lookup, hk, if_true, Option.some.injEq] at h
      subst h
      simp only [GoMap.store, hk, if_true, GoMap.elems, List.map_cons, List.foldr_cons,
        List.append_assoc]
      exact List.Perm.append_left _ List.perm_append_comm
    · simp only [GoMap.lookup, hk, if_false] at h
      have := ih h
      simp only [GoMap.elems] at this
      simp only [GoMap.store, hk, if_false, GoMap.elems, List.map_cons, List.foldr_cons,
        List.append_assoc]
      exact List.Perm.append_left _ this

theorem elems_aroundStep (res : GoMap String (List Programme)) (p : Programme) :
    (GoMap.elems (aroundStep res p)).Perm (GoMap.elems res ++ [p]) := by
  unfold aroundStep
  cases hl : GoMap.lookup res p.Channel with
  | none =>
    simp only [GoMap.lookup_store_self, Option.getD_some]
    have h1 := elems_store_append (GoMap.store res p.Channel []) p.Channel [] p
      (GoMap.lookup_store_self _ _ _)
    have h2 := elems_store_new res p.Channel [] hl
    rw [h2, List.append_nil] at h1
    exact h1
  | some old =>
    simp only [hl, Option.getD_some]
    exact elems_store_append res p.Channel old p hl

theorem elems_foldl_aroundStep (l : List Programme) (res : GoMap String (List Programme)) :
    (GoMap.elems (l.foldl aroundStep res)).Perm (GoMap.elems res ++ l) := by
  induction l generalizing res with
  | nil => simp
  | cons p rest ih =>
    rw [List.foldl_cons]
    refine (ih (aroundStep res p)).trans ?_
    have := (elems_aroundStep res p).append_right rest
    simpa using this

/-! ## Lemmas on `Load` -/

theorem loadLoop_eq (tzlocal : Int → Int) (channels : GoMap String String)
    (ps : List xmlprogramme) (g : TvGrid) (heap : Nat) :
    (loadLoop tzlocal channels ps g heap).1 =
      (mkEntries tzlocal channels ps heap).foldl addEntry g := by
  induction ps generalizing g heap with
  | nil => rfl
  | cons v rest ih =>
    simp only [loadLoop, mkEntries, List.foldl_cons]
    exact ih _ _

theorem mkEntries_length (tzlocal : Int → Int) (channels : GoMap String String)
    (ps : List xmlprogramme) (heap : Nat) :
    (mkEntries tzlocal channels ps heap).length = ps.length := by
  induction ps generalizing heap with
  | nil => rfl
  | cons v rest ih => simp [mkEntries, ih]

theorem addEntry_of_none (g : TvGrid) (e : Programme)
    (h : g.lookup (e.Start.Round Hour) = none) :
    addEntry g e = g.store (e.Start.Round Hour) [e] := by
  unfold addEntry
  simp only [h]

theorem addEntry_of_some (g : TvGrid) (e : Programme) (l : List Programme)
    (h : g.lookup (e.Start.Round Hour) = some l) :
    addEntry g e = g.store (e.Start.Round Hour) (l ++ [e]) := by
  unfold addEntry
  simp only [h]

theorem lookup_addEntry (g : TvGrid) (e : Programme) (k : Time) :
    (addEntry g e).lookup k =
      if e.Start.Round Hour = k then some ((g.lookup k).getD [] ++ [e]) else g.lookup k := by
  by_cases h : e.Start.Round Hour = k
  · subst h
    cases hl : GoMap.lookup g (e.Start.Round Hour) with
    | none => simp [addEntry_of_none g e hl, GoMap.lookup_store_self]
    | some l => simp [addEntry_of_some g e l hl, GoMap.lookup_store_self]
  · simp only [h, if_false]
    cases hl : GoMap.lookup g (e.Start.Round Hour) with
    | none => rw [addEntry_of_none g e hl, GoMap.lookup_store_ne _ _ _ _ h]
    | some l => rw [addEntry_of_some g e l hl, GoMap.lookup_store_ne _ _ _ _ h]

theorem lookup_foldl_addEntry (es : List Programme) (g : TvGrid) (k : Time) :
    (es.foldl addEntry g).lookup k =
      if es.filter (fun e => decide (e.Start.Round Hour = k)) = [] then g.lookup k
      else some ((g.lookup k).getD [] ++ es.filter (fun e => decide (e.Start.Round Hour = k))) := by
  induction es generalizing g with
  | nil => simp
  | cons e rest ih =>
    rw [List.foldl_cons, ih, lookup_addEntry]
    by_cases h : e.Start.Round Hour = k
    · simp [h, List.filter_cons]
    · simp [h, List.filter_cons]

theorem nodup_addEntry (g : TvGrid) (e : Programme) (h : (GoMap.keys g).Nodup) :
    (GoMap.keys (addEntry g e)).Nodup := by
  cases hl : GoMap.lookup g (e.Start.Round Hour) with
  | none =>
    rw [addEntry_of_none g e hl]
    exact GoMap.nodup_store _ _ _ h
  | some l =>
    rw [addEntry_of_some g e l hl]
    exact GoMap.nodup_store _ _ _ h

theorem nodup_foldl_addEntry (es : List Programme) (g : TvGrid) (h : (GoMap.keys g).Nodup) :
    (GoMap.keys (es.foldl addEntry g)).Nodup := by
  induction es generalizing g with
  | nil => exact h
  | cons e rest ih => exact ih _ (nodup_addEntry g e h)

theorem elems_addEntry (g : TvGrid) (e : Programme) :
    (GoMap.elems (addEntry g e)).Perm (GoMap.elems g ++ [e]) := by
  cases hl : GoMap.lookup g (e.Start.Round Hour) with
  | none =>
    rw [addEntry_of_none g e hl, elems_store_new g (e.Start.Round Hour) [e] hl]
  | some l =>
    rw [addEntry_of_some g e l hl]
    exact elems_store_append g (e.Start.Round Hour) l e hl

theorem elems_foldl_addEntry (es : List Programme) (g : TvGrid) :
    (GoMap.elems (es.foldl addEntry g)).Perm (GoMap.elems g ++ es) := by
  induction es generalizing g with
  | nil => simp
  | cons e rest ih =>
    rw [List.foldl_cons]
    refine (ih (addEntry g e)).trans ?_
    have := (elems_addEntry g e).append_right rest
    simpa using this

theorem onAir_iff (d : Time) (p : Programme) :
    onAir d p = true ↔ p.Start.ns < d.ns ∧ d.ns < p.Stop.ns := by
  simp [onAir, Time.After, Time.Before]

theorem Load_ok (unmarshal : List UInt8 → Except String xmltv) (tzlocal : Int → Int)
    (t : TvGrid) (s : List UInt8) (heap : Nat) (x : xmltv)
    (hx : unmarshal s = Except.ok x) (hch : x.ChannelList ≠ []) :
    (Load unmarshal tzlocal t s heap).exit = Exit.returnedNil ∧
    (Load unmarshal tzlocal t s heap).grid =
      (mkEntries tzlocal (channelTable x.ChannelList) x.ProgrammeList heap).foldl addEntry [] := by
  have hlen : ¬ x.ChannelList.length = 0 := by
    intro h
    exact hch (List.length_eq_zero.mp h)
  unfold Load
  simp only [hx, hlen, if_false, loadLoop_eq]
  exact ⟨trivial, trivial⟩

theorem Load_ok_inv (unmarshal : List UInt8 → Except String xmltv) (tzlocal : Int → Int)
    (t : TvGrid) (s : List UInt8) (heap : Nat)
    (h : (Load unmarshal tzlocal t s heap).exit = Exit.returnedNil) :
    ∃ x, unmarshal s = Except.ok x ∧ x.ChannelList ≠ [] := by
  unfold Load at h
  cases hx : unmarshal s with
  | error err => simp [hx] at h
  | ok x =>
    refine ⟨x, rfl, ?_⟩
    intro hnil
    simp [hx, hnil] at h

/-! ## Lemmas on rounding -/

theorem Hour_eq : Hour = 3600000000000 := by decide

theorem Minute_eq : Minute = 60000000000 := by decide

theorem Second_eq : Second = 1000000000 := by decide

theorem Round_ns (t : Time) :
    (t.Round Hour).ns =
      if t.ns % Hour + t.ns % Hour < Hour then t.ns - t.ns % Hour
      else t.ns + (Hour - t.ns % Hour) := by
  have hpos : ¬ Hour ≤ 0 := by decide
  unfold Time.Round
  simp only [hpos, if_false]
  split
  · simp only [Time.Add]
    omega
  · simp only [Time.Add]

theorem Round_loc (t : Time) : (t.Round Hour).loc = t.loc := by
  have hpos : ¬ Hour ≤ 0 := by decide
  unfold Time.Round
  simp only [hpos, if_false]
  split <;> rfl

theorem Round_mod (t : Time) : (t.Round Hour).ns % Hour = 0 := by
  rw [Round_ns, Hour_eq]
  split <;> omega

theorem Round_near (t : Time) :
    (t.Round Hour).ns - 30 * Minute ≤ t.ns ∧ t.ns < (t.Round Hour).ns + 30 * Minute := by
  rw [Round_ns, Hour_eq, Minute_eq]
  split <;> omega

theorem Round_unique (t : Time) (h : Int) (hmod : h % Hour = 0)
    (hlo : h - 30 * Minute ≤ t.ns) (hhi : t.ns < h + 30 * Minute) :
    (t.Round Hour).ns = h := by
  rw [Round_ns]
  rw [Hour_eq] at hmod ⊢
  rw [Minute_eq] at hlo hhi
  split <;> omega

theorem Round_fixed (t : Time) (h : t.ns % Hour = 0) : t.Round Hour = t := by
  have hns : (t.Round Hour).ns = t.ns :=
    Round_unique t t.ns h (by rw [Minute_eq]; omega) (by rw [Minute_eq]; omega)
  have hloc := Round_loc t
  cases hr : t.Round Hour with
  | mk ns loc =>
    rw [hr] at hns hloc
    cases t with
    | mk ns0 loc0 =>
      simp only at hns hloc
      rw [hns, hloc]

theorem Round_idem (t : Time) : (t.Round Hour).Round Hour = t.Round Hour :=
  Round_fixed _ (Round_mod t)

theorem Add_Hour_mod (t : Time) (k : Int) (h : t.ns % Hour = 0) :
    (t.Add (k * Hour)).ns % Hour = 0 := by
  simp only [Time.Add]
  rw [Int.add_mul_emod_self]
  exact h

/-! ## Lemmas on the last programme on air -/

theorem filter_getLast_split {α : Type} (P : α → Bool) (l : List α) (h : l.filter P ≠ []) :
    ∃ l1 x l2, l = l1 ++ x :: l2 ∧ P x = true ∧ (∀ q ∈ l2, P q = false) ∧
      (l.filter P).getLast? = some x := by
  induction l using List.reverseRecOn with
  | nil => simp at h
  | append_singleton init a ih =>
    by_cases ha : P a = true
    · refine ⟨init, a, [], rfl, ha, by simp, ?_⟩
      simp [List.filter_append, ha]
    · have ha' : P a = false := by simpa using ha
      have hinit : init.filter P ≠ [] := by
        simpa [List.filter_append, ha'] using h
      obtain ⟨l1, x, l2, hsplit, hx, hrest, hlast⟩ := ih hinit
      refine ⟨l1, x, l2 ++ [a], by simp [hsplit], hx, ?_, ?_⟩
      · intro q hq
        rcases List.mem_append.mp hq with h1 | h2
        · exact hrest q h1
        · simp only [List.mem_singleton] at h2
          subst h2
          exact ha'
      · simpa [List.filter_append, ha'] using hlast

/-! ## Lemmas on the buckets of a loaded grid -/

theorem mem_foldl_addEntry (es : List Programme) (k : Time) (l : List Programme)
    (h : (k, l) ∈ es.foldl addEntry []) :
    l = es.filter (fun e => decide (e.Start.Round Hour = k)) ∧ l ≠ [] := by
  have hnodup := nodup_foldl_addEntry es [] (by simp [GoMap.keys])
  have hl := GoMap.lookup_of_mem _ k l hnodup h
  rw [lookup_foldl_addEntry] at hl
  split at hl
  · simp [GoMap.lookup] at hl
  · rename_i hne
    simp only [GoMap.lookup, Option.getD_none, List.nil_append, Option.some.injEq] at hl
    subst hl
    exact ⟨rfl, hne⟩

/-! ## Lemmas on the entries `Load` makes -/

theorem foldl_some_last {α β : Type} (g : α → β) (l : List α) (init : Option β) :
    l.foldl (fun _ x => some (g x)) init =
      match l.getLast? with
      | none => init
      | some x => some (g x) := by
  induction l generalizing init with
  | nil => rfl
  | cons a rest ih =>
    rw [List.foldl_cons, ih]
    cases rest with
    | nil => rfl
    | cons b rest2 =>
      rw [List.getLast?_cons_cons]
      cases h : (b :: rest2).getLast? with
      | none => simp at h
      | some x => rfl

theorem lookup_foldl_store (chs : List xmlchannel) (m : GoMap String String) (id : String) :
    (chs.foldl (fun m v => m.store v.Id v.Name) m).lookup id =
      (chs.filter (fun ch => decide (ch.Id = id))).foldl (fun _ ch => some ch.Name)
        (m.lookup id) := by
  induction chs generalizing m with
  | nil => rfl
  | cons ch rest ih =>
    rw [List.foldl_cons, ih]
    by_cases h : ch.Id = id
    · simp [h, List.filter_cons, GoMap.lookup_store_self]
    · simp [h, List.filter_cons, GoMap.lookup_store_ne _ _ _ _ h]

/-- The alias table gives an identifier the name of the last channel record
that has it. -/
theorem lookup_channelTable (chs : List xmlchannel) (id : String) :
    (channelTable chs).lookup id =
      ((chs.filter (fun ch => decide (ch.Id = id))).getLast?).map (fun ch => ch.Name) := by
  unfold channelTable
  rw [lookup_foldl_store, foldl_some_last]
  cases (chs.filter (fun ch => decide (ch.Id = id))).getLast? with
  | none => simp [GoMap.lookup]
  | some ch => simp

theorem mkEntry_fields (tzlocal : Int → Int) (channels : GoMap String String)
    (v : xmlprogramme) (heap : Nat) :
    (mkEntry tzlocal channels v heap).1.Channel = (channels.lookup v.Channel).getD "" ∧
    (mkEntry tzlocal channels v heap).1.Title = v.Title ∧
    (mkEntry tzlocal channels v heap).1.SubTitle = v.SubTitle ∧
    (mkEntry tzlocal channels v heap).1.Description = v.Description ∧
    (mkEntry tzlocal channels v heap).1.Credits = v.Credits ∧
    (mkEntry tzlocal channels v heap).1.Date = v.Date ∧
    (mkEntry tzlocal channels v heap).1.Categories = v.Categories ∧
    (mkEntry tzlocal channels v heap).1.Rating = v.Rating ∧
    (mkEntry tzlocal channels v heap).1.Length =
      ((mkEntry tzlocal channels v heap).1.Stop.Sub
        (mkEntry tzlocal channels v heap).1.Start).minutesInt := by
  refine ⟨?_, rfl, rfl, rfl, rfl, rfl, rfl, rfl, rfl⟩
  simp only [mkEntry]
  cases GoMap.lookup channels v.Channel <;> rfl

theorem mkEntry_times (tzlocal : Int → Int) (channels : GoMap String String)
    (v : xmlprogramme) (heap : Nat) :
    (mkEntry tzlocal channels v heap).1.Start = (parseOrZero tzlocal v.Start heap).1 ∧
    (mkEntry tzlocal channels v heap).1.Stop =
      (parseOrZero tzlocal v.Stop (parseOrZero tzlocal v.Start heap).2).1 :=
  ⟨rfl, rfl⟩

/-- Records and entries go in pairs: the entry at a position is made from the
record at that position, at some state of the heap. -/
theorem mkEntries_forall2 (tzlocal : Int → Int) (channels : GoMap String String)
    (ps : List xmlprogramme) (heap : Nat) :
    List.Forall₂ (fun r e => ∃ h, e = (mkEntry tzlocal channels r h).1) ps
      (mkEntries tzlocal channels ps heap) := by
  induction ps generalizing heap with
  | nil => exact List.Forall₂.nil
  | cons v rest ih => exact List.Forall₂.cons ⟨heap, rfl⟩ (ih _)

/-- Whether `Parse` fails depends neither on the local zone nor on the heap. -/
theorem Parse_none (tz1 tz2 : Int → Int) (layout value : List Char) (h1 h2 : Nat)
    (h : (Parse tz1 layout value h1).1 = none) : (Parse tz2 layout value h2).1 = none := by
  unfold Parse at h ⊢
  cases hp : parseLoop (layout.length + 1) layout value {} with
  | none => rfl
  | some f =>
    simp only [hp] at h ⊢
    split_ifs at h ⊢
    rfl

theorem parseOrZero_none (tz1 tz2 : Int → Int) (value : String) (h1 h2 : Nat)
    (h : (Parse tz1 xmldateformat.data value.data h1).1 = none) :
    (parseOrZero tz2 value h2).1 = Time.zero := by
  have := Parse_none tz1 tz2 _ _ h1 h2 h
  simp only [parseOrZero, this, Option.getD_none]

theorem zero_Round : Time.zero.Round Hour = Time.zero := by decide

/-! ## Parsed times are whole minutes -/

theorem parseStd_whole (std : Std) (value value2 : List Char) (f f2 : Fields)
    (h : parseStd std value f = some (value2, f2)) (hf : f.whole) : f2.whole := by
  obtain ⟨hsec, hz⟩ := hf
  cases std
  all_goals simp only [parseStd] at h
  all_goals try (cases h)
  all_goals (repeat' split at h)
  all_goals try (cases h)
  all_goals first
    | exact ⟨hsec, hz⟩
    | exact ⟨hsec, Or.inr (by simp only []; omega)⟩

theorem parseLoop_whole (n : Nat) (layout value : List Char) (f f2 : Fields)
    (h : parseLoop n layout value f = some f2) (hf : f.whole) : f2.whole := by
  induction n generalizing layout value f with
  | zero => simp [parseLoop] at h
  | succ n ih =>
    simp only [parseLoop] at h
    cases hsk : skip value (nextStdChunk layout).1 with
    | none => simp [hsk] at h
    | some value1 =>
      cases hstd : (nextStdChunk layout).2.1 with
      | none =>
        simp only [hsk, hstd] at h
        split at h
        · cases h
        · cases h
          exact hf
      | some std =>
        cases hp : parseStd std value1 f with
        | none => simp [hsk, hstd, hp] at h
        | some r =>
          obtain ⟨value2, f3⟩ := r
          simp only [hsk, hstd, hp] at h
          exact ih _ _ _ h (parseStd_whole std value1 value2 f f3 hp hf)

theorem dateSec_mod (year : Int) (month day hour min : Nat) :
    dateSec year month day hour min 0 % 60 = 0 := by
  simp only [dateSec]
  omega

theorem Parse_whole_minute (tzlocal : Int → Int) (layout value : List Char) (heap : Nat)
    (t : Time) (h : (Parse tzlocal layout value heap).1 = some t) : t.ns % Minute = 0 := by
  unfold Parse at h
  cases hp : parseLoop (layout.length + 1) layout value {} with
  | none => simp [hp] at h
  | some f =>
    have hw : f.whole := parseLoop_whole _ _ _ _ f hp ⟨rfl, Or.inl rfl⟩
    obtain ⟨hsec, hz⟩ := hw
    have hd := dateSec_mod f.year f.month.toNat f.day.toNat f.hour f.min
    simp only [hp, hsec] at h
    rw [Minute_eq]
    split_ifs at h with h1 h2 h3
    all_goals simp only [Option.some.injEq] at h
    all_goals subst h
    all_goals simp only [Second_eq]
    · omega
    · rcases hz with hz | hz
      · exact absurd hz h2
      · omega
    · rcases hz with hz | hz
      · exact absurd hz h2
      · omega

theorem parseOrZero_some (tz1 tz2 : Int → Int) (value : String) (h1 h2 : Nat)
    (h : (Parse tz1 xmldateformat.data value.data h1).1 ≠ none) :
    (Parse tz2 xmldateformat.data value.data h2).1 = some (parseOrZero tz2 value h2).1 := by
  cases hp : (Parse tz2 xmldateformat.data value.data h2).1 with
  | none => exact absurd (Parse_none tz2 tz1 _ _ h2 h1 hp) h
  | some t => simp [parseOrZero, hp]

theorem wrap64_of_range (x : Int) (hlo : minDuration ≤ x) (hhi : x ≤ maxDuration) :
    wrap64 x = x := by
  have h1 : minDuration = (-9223372036854775808 : Int) := by decide
  have h2 : maxDuration = (9223372036854775807 : Int) := by decide
  have hlo1 : (-9223372036854775808 : Int) ≤ x := h1 ▸ hlo
  have hhi1 : x ≤ (9223372036854775807 : Int) := h2 ▸ hhi
  have e63 : (2 : Int) ^ 63 = 9223372036854775808 := by norm_num
  have e64 : (2 : Int) ^ 64 = 18446744073709551616 := by norm_num
  simp only [wrap64, e63, e64]
  omega

theorem Sub_of_range (t u : Time) (hlo : minDuration ≤ t.ns - u.ns)
    (hhi : t.ns - u.ns ≤ maxDuration) : t.Sub u = t.ns - u.ns := by
  simp only [Time.Sub, wrap64_of_range _ hlo hhi, Time.Add]
  have : u.ns + (t.ns - u.ns) = t.ns := by omega
  simp [this]

theorem wrap64_range (x : Int) :
    (-9223372036854775808 : Int) ≤ wrap64 x ∧ wrap64 x ≤ (9223372036854775807 : Int) := by
  have e63 : (2 : Int) ^ 63 = 9223372036854775808 := by norm_num
  have e64 : (2 : Int) ^ 64 = 18446744073709551616 := by norm_num
  simp only [wrap64, e63, e64]
  omega

theorem Sub_above (t u : Time) (h : maxDuration < t.ns - u.ns) : t.Sub u = maxDuration := by
  have h2 : maxDuration = (9223372036854775807 : Int) := by decide
  have hx : (9223372036854775807 : Int) < t.ns - u.ns := h2 ▸ h
  have hr := wrap64_range (t.ns - u.ns)
  have hne : ¬ (u.ns + wrap64 (t.ns - u.ns) = t.ns) := by omega
  have hnb : ¬ (t.ns < u.ns) := by omega
  simp [Time.Sub, Time.Add, Time.Before, hne, hnb]

theorem Sub_below (t u : Time) (h : t.ns - u.ns < minDuration) : t.Sub u = minDuration := by
  have h1 : minDuration = (-9223372036854775808 : Int) := by decide
  have hx : t.ns - u.ns < (-9223372036854775808 : Int) := h1 ▸ h
  have hr := wrap64_range (t.ns - u.ns)
  have hne : ¬ (u.ns + wrap64 (t.ns - u.ns) = t.ns) := by omega
  have hb : t.ns < u.ns := by omega
  simp [Time.Sub, Time.Add, Time.Before, hne, hb]

theorem minutesInt_max : Duration.minutesInt maxDuration = 153722867 := by decide

theorem minutesInt_min : Duration.minutesInt minDuration = -153722867 := by decide

theorem minutesInt_exact (d : Int) (h : d % Minute = 0) :
    Duration.minutesInt d * Minute = d := by
  unfold Duration.minutesInt
  exact Int.tdiv_mul_cancel (Int.dvd_of_emod_eq_zero h)

/-! ## Lemmas on `Programme.String` -/

theorem sprintf_line (a b c : List Char) (n : Int) :
    sprintf ['(', '%', 's', ')', ' ', '%', 's', ':', ' ', '%', 's', ' ', '-', ' ', '%', 'd', 'm']
        [Arg.str a, Arg.str b, Arg.str c, Arg.int n] =
      '(' :: (a ++ (')' :: ' ' :: (b ++ (':' :: ' ' :: (c ++ (' ' :: '-' :: ' ' ::
        ((toString n).data ++ ['m']))))))) := by
  simp [sprintf]

theorem appendInt_two (x : Nat) (hx : x < 100) :
    appendInt x 2 = [Char.ofNat (48 + x / 10), Char.ofNat (48 + x % 10)] := by
  have key : ∀ y : Fin 100,
      appendInt y.val 2 = [Char.ofNat (48 + y.val / 10), Char.ofNat (48 + y.val % 10)] := by
    decide
  exact key ⟨x, hx⟩

theorem Format_clock (tzlocal : Int → Int) (t : Time) :
    t.Format tzlocal ['1', '5', ':', '0', '4'] =
      appendInt (t.clockHour tzlocal) 2 ++ (':' :: appendInt (t.clockMinute tzlocal) 2) := by
  have h1 : nextStdChunk ['1', '5', ':', '0', '4'] = ([], some Std.stdHour, [':', '0', '4']) := by
    decide
  have h2 : nextStdChunk [':', '0', '4'] = ([':'], some Std.stdZeroMinute, []) := by decide
  have h3 : nextStdChunk [] = ([], none, []) := by decide
  have hlen : ['1', '5', ':', '0', '4'].length + 1 = 3 + 3 := by decide
  simp only [Time.Format, hlen, formatLoop, h1, h2, h3, formatStd]
  simp

theorem clock_bounds (tzlocal : Int → Int) (t : Time) :
    t.clockHour tzlocal < 24 ∧ t.clockMinute tzlocal < 60 ∧
    ((t.clockHour tzlocal : Int) * 3600 + (t.clockMinute tzlocal : Int) * 60
      ≤ t.clockSec tzlocal % 86400) ∧
    (t.clockSec tzlocal % 86400
      < (t.clockHour tzlocal : Int) * 3600 + (t.clockMinute tzlocal : Int) * 60 + 60) := by
  simp only [Time.clockHour, Time.clockMinute]
  generalize t.clockSec tzlocal = x
  omega

/-! ## Lemmas on the window and the buckets -/

theorem mem_bucketsAt (t : TvGrid) (hs : List Time) (p : Programme) :
    p ∈ bucketsAt t hs ↔ ∃ h ∈ hs, p ∈ (t.lookup h).getD [] := by
  induction hs with
  | nil => simp [bucketsAt]
  | cons h rest ih =>
    simp only [bucketsAt, List.map_cons, List.foldr_cons, List.mem_append, List.mem_cons,
      exists_eq_or_imp]
    simp only [bucketsAt] at ih
    rw [ih]

theorem PlayingAround_getD (t : TvGrid) (d : Time) (c : String) :
    ((PlayingAround t d).lookup c).getD [] =
      (window t d).filter (fun p => decide (p.Channel = c)) := by
  rw [PlayingAround_eq, lookup_foldl_aroundStep]
  split
  · rename_i hnil
    simp [GoMap.lookup, hnil]
  · simp [GoMap.lookup]

theorem mem_aroundTime (d k : Time) :
    k ∈ aroundTime d ↔ k.loc = d.loc ∧
      (k.ns = (d.Round Hour).ns - 2 * Hour ∨ k.ns = (d.Round Hour).ns - Hour ∨
        k.ns = (d.Round Hour).ns ∨ k.ns = (d.Round Hour).ns + Hour ∨
        k.ns = (d.Round Hour).ns + 2 * Hour) := by
  have hloc := Round_loc d
  cases hr : d.Round Hour with
  | mk rns rloc =>
    rw [hr] at hloc
    simp only at hloc
    cases k with
    | mk kns kloc =>
      simp only [aroundTime, hr, Time.Add, List.mem_cons, List.mem_singleton, Time.mk.injEq,
        List.not_mem_nil, or_false, hloc]
      rw [Hour_eq]
      constructor
      · rintro (h | h | h | h | h)
        all_goals exact ⟨h.2, by omega⟩
      · rintro ⟨h1, h2⟩
        rcases h2 with h | h | h | h | h
        · exact Or.inl ⟨by omega, h1⟩
        · exact Or.inr (Or.inl ⟨by omega, h1⟩)
        · exact Or.inr (Or.inr (Or.inl ⟨by omega, h1⟩))
        · exact Or.inr (Or.inr (Or.inr (Or.inl ⟨by omega, h1⟩)))
        · exact Or.inr (Or.inr (Or.inr (Or.inr ⟨by omega, h1⟩)))

/-! ## `Load` does not depend on the grid before, nor, up to the cells of the
zones it allocates, on the heap -/

theorem loc_shift_inj (k : Nat) (a b : Location)
    (h : Location.shift k a = Location.shift k b) : a = b := by
  cases a with
  | utc => cases b with
    | utc => rfl
    | localZone => cases h
    | fixed off cell => cases cell <;> cases h
  | localZone => cases b with
    | utc => cases h
    | localZone => rfl
    | fixed off cell => cases cell <;> cases h
  | fixed off cell =>
    cases cell with
    | none => cases b with
      | utc => cases h
      | localZone => cases h
      | fixed off2 cell2 =>
        cases cell2 with
        | none =>
          simp only [Location.shift, Location.fixed.injEq, and_true] at h
          rw [h]
        | some m => simp [Location.shift] at h
    | some n => cases b with
      | utc => cases h
      | localZone => cases h
      | fixed off2 cell2 =>
        cases cell2 with
        | none => simp [Location.shift] at h
        | some m =>
          simp only [Location.shift, Location.fixed.injEq, Option.some.injEq] at h
          have : n = m := by omega
          rw [h.1, this]

theorem time_shift_inj (k : Nat) (a b : Time) (h : a.shift k = b.shift k) : a = b := by
  cases a with
  | mk ans aloc =>
    cases b with
    | mk bns bloc =>
      simp only [Time.shift, Time.mk.injEq] at h
      rw [h.1, loc_shift_inj k aloc bloc h.2]

theorem loc_forget_shift (k : Nat) (a : Location) : (a.shift k).forget = a.forget := by
  cases a with
  | utc => rfl
  | localZone => rfl
  | fixed off cell => cases cell <;> rfl

theorem time_forget_shift (k : Nat) (a : Time) : (a.shift k).forget = a.forget := by
  simp only [Time.shift, Time.forget, loc_forget_shift]

theorem programme_forget_shift (k : Nat) (p : Programme) : (p.shift k).forget = p.forget := by
  simp only [Programme.shift, Programme.forget, time_forget_shift]

theorem forgetGrid_shiftGrid (k : Nat) (g : TvGrid) : forgetGrid (shiftGrid k g) = forgetGrid g := by
  simp only [forgetGrid, shiftGrid, List.map_map]
  apply List.map_congr_left
  intro kv _
  simp only [Function.comp, time_forget_shift, List.map_map, Prod.mk.injEq, true_and]
  apply List.map_congr_left
  intro p _
  exact programme_forget_shift k p

theorem FixedZone_shift (offset : Int) (heap k : Nat) :
    FixedZone offset (heap + k) =
      ((FixedZone offset heap).1.shift k, (FixedZone offset heap).2 + k) := by
  unfold FixedZone
  simp only []
  split
  · rfl
  · simp only [Location.shift, Prod.mk.injEq, true_and]
    omega

theorem Parse_shift (tzlocal : Int → Int) (layout value : List Char) (heap k : Nat) :
    Parse tzlocal layout value (heap + k) =
      ((Parse tzlocal layout value heap).1.map (Time.shift k),
        (Parse tzlocal layout value heap).2 + k) := by
  unfold Parse
  cases parseLoop (layout.length + 1) layout value {} with
  | none => rfl
  | some f =>
    simp only []
    split_ifs
    · rfl
    · rfl
    · rfl
    · simp only [FixedZone_shift, Option.map_some', Time.shift]

theorem parseOrZero_shift (tzlocal : Int → Int) (value : String) (heap k : Nat) :
    parseOrZero tzlocal value (heap + k) =
      ((parseOrZero tzlocal value heap).1.shift k, (parseOrZero tzlocal value heap).2 + k) := by
  simp only [parseOrZero, Parse_shift]
  cases (Parse tzlocal xmldateformat.data value.data heap).1 <;> rfl

theorem mkEntry_shift (tzlocal : Int → Int) (channels : GoMap String String) (v : xmlprogramme)
    (heap k : Nat) :
    mkEntry tzlocal channels v (heap + k) =
      ((mkEntry tzlocal channels v heap).1.shift k, (mkEntry tzlocal channels v heap).2 + k) := by
  simp only [mkEntry, parseOrZero_shift]
  rfl

theorem mkEntries_shift (tzlocal : Int → Int) (channels : GoMap String String)
    (ps : List xmlprogramme) (heap k : Nat) :
    mkEntries tzlocal channels ps (heap + k) =
      (mkEntries tzlocal channels ps heap).map (Programme.shift k) := by
  induction ps generalizing heap with
  | nil => rfl
  | cons v rest ih =>
    simp only [mkEntries, mkEntry_shift, List.map_cons, ih]

theorem Round_shift (k : Nat) (t : Time) (d : Duration) :
    (t.shift k).Round d = (t.Round d).shift k := by
  unfold Time.Round
  split
  · rfl
  · simp only [Time.shift]
    split <;> rfl

theorem lookup_shiftGrid (k : Nat) (g : TvGrid) (key : Time) :
    (shiftGrid k g).lookup (key.shift k) = (g.lookup key).map (List.map (Programme.shift k)) := by
  induction g with
  | nil => rfl
  | cons kv rest ih =>
    obtain ⟨k0, v0⟩ := kv
    simp only [shiftGrid, List.map_cons] at ih ⊢
    by_cases h : k0 = key
    · subst h
      simp [GoMap.lookup]
    · have h2 : ¬ k0.shift k = key.shift k := fun e => h (time_shift_inj k _ _ e)
      simp only [GoMap.lookup, h, h2, if_false]
      exact ih

theorem store_shiftGrid (k : Nat) (g : TvGrid) (key : Time) (l : List Programme) :
    (shiftGrid k g).store (key.shift k) (l.map (Programme.shift k)) =
      shiftGrid k (g.store key l) := by
  induction g with
  | nil => rfl
  | cons kv rest ih =>
    obtain ⟨k0, v0⟩ := kv
    simp only [shiftGrid, List.map_cons] at ih ⊢
    by_cases h : k0 = key
    · subst h
      simp [GoMap.store]
    · have h2 : ¬ k0.shift k = key.shift k := fun e => h (time_shift_inj k _ _ e)
      simp only [GoMap.store, h, h2, if_false, List.map_cons, List.cons.injEq, true_and]
      exact ih

theorem addEntry_shift (k : Nat) (g : TvGrid) (e : Programme) :
    addEntry (shiftGrid k g) (e.shift k) = shiftGrid k (addEntry g e) := by
  have hkey : (e.shift k).Start.Round Hour = (e.Start.Round Hour).shift k :=
    Round_shift k e.Start Hour
  cases hl : g.lookup (e.Start.Round Hour) with
  | none =>
    have hl2 : (shiftGrid k g).lookup ((e.shift k).Start.Round Hour) = none := by
      rw [hkey, lookup_shiftGrid, hl]
      rfl
    rw [addEntry_of_none g e hl, addEntry_of_none _ _ hl2, hkey, ← store_shiftGrid]
    rfl
  | some l =>
    have hl2 : (shiftGrid k g).lookup ((e.shift k).Start.Round Hour) =
        some (l.map (Programme.shift k)) := by
      rw [hkey, lookup_shiftGrid, hl]
      rfl
    rw [addEntry_of_some g e l hl, addEntry_of_some _ _ _ hl2, hkey, ← store_shiftGrid]
    simp

theorem foldl_addEntry_shift (k : Nat) (es : List Programme) (g : TvGrid) :
    (es.map (Programme.shift k)).foldl addEntry (shiftGrid k g) =
      shiftGrid k (es.foldl addEntry g) := by
  induction es generalizing g with
  | nil => rfl
  | cons e rest ih =>
    simp only [List.map_cons, List.foldl_cons, addEntry_shift, ih]

/-- The grid `Load` builds is the same whatever the grid before; with `k` more
zones on the heap it is the same grid with the zones it allocates `k` cells
further on. -/
theorem Load_shift (unmarshal : List UInt8 → Except String xmltv) (tzlocal : Int → Int)
    (g1 g2 : TvGrid) (s : List UInt8) (heap k : Nat)
    (hok : (Load unmarshal tzlocal g1 s heap).exit = Exit.returnedNil) :
    (Load unmarshal tzlocal g2 s (heap + k)).exit = Exit.returnedNil ∧
    (Load unmarshal tzlocal g2 s (heap + k)).grid =
      shiftGrid k (Load unmarshal tzlocal g1 s heap).grid := by
  obtain ⟨x, hx, hch⟩ := Load_ok_inv unmarshal tzlocal g1 s heap hok
  obtain ⟨_, hgrid1⟩ := Load_ok unmarshal tzlocal g1 s heap x hx hch
  obtain ⟨hexit2, hgrid2⟩ := Load_ok unmarshal tzlocal g2 s (heap + k) x hx hch
  refine ⟨hexit2, ?_⟩
  rw [hgrid1, hgrid2, mkEntries_shift, ← foldl_addEntry_shift]
  rfl

theorem shiftGrid_zero (g : TvGrid) : shiftGrid 0 g = g := by
  have hloc : ∀ a : Location, a.shift 0 = a := by
    intro a
    cases a with
    | utc => rfl
    | localZone => rfl
    | fixed off cell => cases cell <;> rfl
  have htime : ∀ a : Time, a.shift 0 = a := by
    intro a
    simp only [Time.shift, hloc]
  have hprog : ∀ p : Programme, p.shift 0 = p := by
    intro p
    simp only [Programme.shift, htime]
  simp only [shiftGrid, htime]
  conv_rhs => rw [← List.map_id g]
  apply List.map_congr_left
  intro kv _
  have : kv.2.map (Programme.shift 0) = kv.2 := by
    conv_rhs => rw [← List.map_id kv.2]
    apply List.map_congr_left
    intro p _
    exact hprog p
  rw [this]
  rfl

/-! ## Loads that allocate no zone -/

theorem FixedZone_le (offset : Int) (heap : Nat) : heap ≤ (FixedZone offset heap).2 := by
  unfold FixedZone
  simp only []
  split
  · exact Nat.le_refl _
  · exact Nat.le_succ _

theorem FixedZone_fix (offset : Int) (heap k : Nat) (h : (FixedZone offset heap).2 = heap) :
    (FixedZone offset heap).1.shift k = (FixedZone offset heap).1 := by
  unfold FixedZone at h ⊢
  simp only [] at h ⊢
  split
  · rfl
  · rename_i hc
    simp only [hc] at h
    simp only [Bool.false_eq_true, if_false] at h
    omega

theorem Parse_le (tzlocal : Int → Int) (layout value : List Char) (heap : Nat) :
    heap ≤ (Parse tzlocal layout value heap).2 := by
  unfold Parse
  cases parseLoop (layout.length + 1) layout value {} with
  | none => exact Nat.le_refl _
  | some f =>
    simp only []
    split_ifs
    · exact Nat.le_refl _
    · exact Nat.le_refl _
    · exact Nat.le_refl _
    · exact FixedZone_le _ _

theorem Parse_fix (tzlocal : Int → Int) (layout value : List Char) (heap k : Nat)
    (h : (Parse tzlocal layout value heap).2 = heap) :
    (Parse tzlocal layout value heap).1.map (Time.shift k) =
      (Parse tzlocal layout value heap).1 := by
  unfold Parse at h ⊢
  cases hp : parseLoop (layout.length + 1) layout value {} with
  | none => rfl
  | some f =>
    simp only [hp] at h ⊢
    split_ifs at h ⊢
    · rfl
    · rfl
    · rfl
    · simp only [Option.map_some', Time.shift, FixedZone_fix _ _ k h]

theorem parseOrZero_le (tzlocal : Int → Int) (value : String) (heap : Nat) :
    heap ≤ (parseOrZero tzlocal value heap).2 :=
  Parse_le tzlocal _ _ heap

theorem parseOrZero_fix (tzlocal : Int → Int) (value : String) (heap k : Nat)
    (h : (parseOrZero tzlocal value heap).2 = heap) :
    (parseOrZero tzlocal value heap).1.shift k = (parseOrZero tzlocal value heap).1 := by
  have hp := Parse_fix tzlocal xmldateformat.data value.data heap k h
  simp only [parseOrZero] at h ⊢
  cases hv : (Parse tzlocal xmldateformat.data value.data heap).1 with
  | none => rfl
  | some t =>
    rw [hv] at hp
    simp only [Option.map_some', Option.some.injEq] at hp
    simpa using hp

theorem mkEntry_le (tzlocal : Int → Int) (channels : GoMap String String) (v : xmlprogramme)
    (heap : Nat) : heap ≤ (mkEntry tzlocal channels v heap).2 :=
  Nat.le_trans (parseOrZero_le tzlocal v.Start heap) (parseOrZero_le tzlocal v.Stop _)

theorem mkEntry_fix (tzlocal : Int → Int) (channels : GoMap String String) (v : xmlprogramme)
    (heap k : Nat) (h : (mkEntry tzlocal channels v heap).2 = heap) :
    (mkEntry tzlocal channels v heap).1.shift k = (mkEntry tzlocal channels v heap).1 := by
  have h1 := parseOrZero_le tzlocal v.Start heap
  have h2 := parseOrZero_le tzlocal v.Stop (parseOrZero tzlocal v.Start heap).2
  have h3 : (parseOrZero tzlocal v.Stop (parseOrZero tzlocal v.Start heap).2).2 = heap := h
  have e1 : (parseOrZero tzlocal v.Start heap).2 = heap := by omega
  have e2 : (parseOrZero tzlocal v.Stop (parseOrZero tzlocal v.Start heap).2).2 =
      (parseOrZero tzlocal v.Start heap).2 := by omega
  have f1 := parseOrZero_fix tzlocal v.Start heap k e1
  have f2 := parseOrZero_fix tzlocal v.Stop _ k e2
  have hs := (mkEntry_times tzlocal channels v heap).1
  have ht := (mkEntry_times tzlocal channels v heap).2
  simp only [Programme.shift, hs, ht, f1, f2]
  rfl

theorem loadLoop_le (tzlocal : Int → Int) (channels : GoMap String String)
    (ps : List xmlprogramme) (g : TvGrid) (heap : Nat) :
    heap ≤ (loadLoop tzlocal channels ps g heap).2 := by
  induction ps generalizing g heap with
  | nil => exact Nat.le_refl _
  | cons v rest ih =>
    simp only [loadLoop]
    exact Nat.le_trans (mkEntry_le tzlocal channels v heap) (ih _ _)

theorem loadLoop_fix (tzlocal : Int → Int) (channels : GoMap String String)
    (ps : List xmlprogramme) (g : TvGrid) (heap k : Nat)
    (h : (loadLoop tzlocal channels ps g heap).2 = heap) :
    (mkEntries tzlocal channels ps heap).map (Programme.shift k) =
      mkEntries tzlocal channels ps heap := by
  induction ps generalizing g heap with
  | nil => rfl
  | cons v rest ih =>
    simp only [loadLoop] at h
    have h1 := mkEntry_le tzlocal channels v heap
    have h2 := loadLoop_le tzlocal channels rest (addEntry g (mkEntry tzlocal channels v heap).1)
      (mkEntry tzlocal channels v heap).2
    have e1 : (mkEntry tzlocal channels v heap).2 = heap := by omega
    rw [e1] at h
    simp only [mkEntries, List.map_cons, mkEntry_fix tzlocal channels v heap k e1, e1,
      ih _ _ h]

theorem loadLoop_heap_shift (tzlocal : Int → Int) (channels : GoMap String String)
    (ps : List xmlprogramme) (g g2 : TvGrid) (heap k : Nat) :
    (loadLoop tzlocal channels ps g2 (heap + k)).2 =
      (loadLoop tzlocal channels ps g heap).2 + k := by
  induction ps generalizing g g2 heap with
  | nil => rfl
  | cons v rest ih =>
    simp only [loadLoop, mkEntry_shift]
    exact ih _ _ _

theorem Load_heap (unmarshal : List UInt8 → Except String xmltv) (tzlocal : Int → Int)
    (t : TvGrid) (s : List UInt8) (heap : Nat) (x : xmltv)
    (hx : unmarshal s = Except.ok x) (hch : x.ChannelList ≠ []) :
    (Load unmarshal tzlocal t s heap).heap =
      (loadLoop tzlocal (channelTable x.ChannelList) x.ProgrammeList [] heap).2 := by
  have hlen : ¬ x.ChannelList.length = 0 := by
    intro h
    exact hch (List.length_eq_zero.mp h)
  unfold Load
  simp only [hx, hlen, if_false]

/-- A load that allocates no zone builds the same grid at every state of the
heap and over every grid. -/
theorem Load_noalloc (unmarshal : List UInt8 → Except String xmltv) (tzlocal : Int → Int)
    (g1 g2 : TvGrid) (s : List UInt8) (h1 h2 : Nat)
    (hok : (Load unmarshal tzlocal g1 s h1).exit = Exit.returnedNil)
    (hheap : (Load unmarshal tzlocal g1 s h1).heap = h1) :
    (Load unmarshal tzlocal g2 s h2).grid = (Load unmarshal tzlocal g1 s h1).grid ∧
    (Load unmarshal tzlocal g2 s h2).heap = h2 := by
  obtain ⟨x, hx, hch⟩ := Load_ok_inv unmarshal tzlocal g1 s h1 hok
  have hg1 := (Load_ok unmarshal tzlocal g1 s h1 x hx hch).2
  have hg2 := (Load_ok unmarshal tzlocal g2 s h2 x hx hch).2
  rw [Load_heap unmarshal tzlocal g1 s h1 x hx hch] at hheap
  rw [Load_heap unmarshal tzlocal g2 s h2 x hx hch, hg1, hg2]
  rcases Nat.le_total h1 h2 with hle | hle
  · obtain ⟨k, rfl⟩ := Nat.exists_eq_add_of_le hle
    have hfix := loadLoop_fix tzlocal _ x.ProgrammeList [] h1 k hheap
    have hs := loadLoop_heap_shift tzlocal (channelTable x.ChannelList) x.ProgrammeList [] []
      h1 k
    rw [mkEntries_shift, hfix, hs, hheap]
    exact ⟨rfl, rfl⟩
  · obtain ⟨k, rfl⟩ := Nat.exists_eq_add_of_le hle
    have hs := loadLoop_heap_shift tzlocal (channelTable x.ChannelList) x.ProgrammeList [] []
      h2 k
    rw [hs] at hheap
    have h2fix : (loadLoop tzlocal (channelTable x.ChannelList) x.ProgrammeList [] h2).2 = h2 := by
      omega
    have hfix := loadLoop_fix tzlocal _ x.ProgrammeList [] h2 k h2fix
    rw [mkEntries_shift, hfix]
    exact ⟨rfl, h2fix⟩

/-! ## The claims -/

set_option maxRecDepth 100000

/-- C1 (defect in the code). The layout constant spells the seconds as the
literal text `00` and not as the element `05`: `nextStdChunk` finds no layout
element in `00 ` and hands it to `skip` as text to match, which fails on `30`.
A start of `20230115140030 +0000` is therefore rejected and `Load` stores the
zero timestamp, on every machine, and so is every seconds value from 01 to 59;
the same instant with seconds `00` is parsed to 2023-01-15 14:00:00 UTC. -/
theorem C1_seconds_are_literal_text :
    nextStdChunk "00 -0700".data = ("00 ".data, some Std.stdNumTZ, []) ∧
    skip "30 +0000".data "00 ".data = none ∧
    (∀ (tzlocal : Int → Int) (heap : Nat),
      parseOrZero tzlocal "20230115140030 +0000" heap = (Time.zero, heap)) ∧
    (∀ n : Fin 60, n.val ≠ 0 → ∀ (tzlocal : Int → Int) (heap : Nat),
      Parse tzlocal xmldateformat.data (withSeconds n.val) heap = (none, heap)) ∧
    withSeconds 30 = "20230115140030 +0000".data ∧
    (parseOrZero localUTC "20230115140000 +0000" 0).1
      = ⟨63809388000 * Second, Location.localZone⟩ ∧
    (GoMap.elems (Load (decodeAs secondsDoc) localUTC [] [] 0).grid).map (fun p => p.Start)
      = [Time.zero] := by
  refine ⟨by decide, by decide, ?_, ?_, by decide, by decide, by decide⟩
  · intro tzlocal heap
    have h : parseLoop (xmldateformat.data.length + 1) xmldateformat.data
        "20230115140030 +0000".data {} = none := by decide
    simp only [parseOrZero, Parse, h, Option.getD_none]
  · have key : ∀ n : Fin 60, n.val ≠ 0 →
        parseLoop (xmldateformat.data.length + 1) xmldateformat.data
          (withSeconds n.val) {} = none := by decide
    intro n hn tzlocal heap
    simp only [Parse, key n hn]

/-- C2 (defect in the code). A decoded document without channel records makes
line 70 divide by zero: `Load` panics, whatever the programme list, and the
grid behind the receiver is left as it was. -/
theorem C2_empty_channel_list_panics (ps : List xmlprogramme) (tzlocal : Int → Int)
    (t : TvGrid) (s : List UInt8) (heap : Nat) :
    (Load (decodeAs ⟨[], ps⟩) tzlocal t s heap).exit = Exit.panicDivideByZero ∧
    (Load (decodeAs ⟨[], ps⟩) tzlocal t s heap).grid = t := by
  simp [Load, decodeAs]

/-- C3, the claim as stated fails: at 14:00 the window of the grid loaded from
`upcomingDoc` holds a programme of "BBC One" that starts after 14:00 and none
on air, and `PlayingAt` has no entry for "BBC One". -/
theorem C3_upcoming_only_is_dropped :
    (∃ p ∈ window (Load (decodeAs upcomingDoc) localUTC [] [] 0).grid sampleTime,
      p.Channel = "BBC One" ∧ sampleTime.ns < p.Start.ns) ∧
    (∀ p ∈ window (Load (decodeAs upcomingDoc) localUTC [] [] 0).grid sampleTime,
      p.Channel = "BBC One" → ¬ (p.Start.ns < sampleTime.ns ∧ sampleTime.ns < p.Stop.ns)) ∧
    (PlayingAt (Load (decodeAs upcomingDoc) localUTC [] [] 0).grid sampleTime).lookup "BBC One"
      = none := by
  decide

/-- C3 as amended: a channel without a programme on air in the window has no
entry in `PlayingAt`, whether or not the window holds a programme of the
channel that starts later (line 159 writes "next" only into an existing
entry). -/
theorem C3_no_entry_without_current (t : TvGrid) (d : Time) (c : String)
    (h : ∀ p ∈ window t d, p.Channel = c → ¬ (p.Start.ns < d.ns ∧ d.ns < p.Stop.ns)) :
    (PlayingAt t d).lookup c = none ∧ c ∉ GoMap.keys (PlayingAt t d) := by
  have hnone : (PlayingAt t d).lookup c = none := by
    rw [lookup_PlayingAt]
    have hf : (window t d).filter (fun p => decide (p.Channel = c) && onAir d p) = [] := by
      rw [List.filter_eq_nil_iff]
      intro p hp hcond
      simp only [Bool.and_eq_true, decide_eq_true_eq] at hcond
      exact h p hp hcond.1 ((onAir_iff d p).mp hcond.2)
    rw [hf]
    rfl
  exact ⟨hnone, (GoMap.lookup_eq_none_iff _ _).mp hnone⟩

/-- C3 as amended, on the grid loaded from `upcomingDoc` at 14:00: the upcoming
programme of "BBC One" is in the window and "BBC One" has no entry. -/
theorem C3_no_entry_without_current_witness :
    (∃ p ∈ window (Load (decodeAs upcomingDoc) localUTC [] [] 0).grid sampleTime,
      p.Channel = "BBC One" ∧ sampleTime.ns < p.Start.ns) ∧
    (PlayingAt (Load (decodeAs upcomingDoc) localUTC [] [] 0).grid sampleTime).lookup "BBC One"
      = none :=
  ⟨by decide,
    (C3_no_entry_without_current (Load (decodeAs upcomingDoc) localUTC [] [] 0).grid sampleTime
      "BBC One" (by decide)).1⟩

/-- C4 (defect in the code). The grid loaded from `longDoc` holds a programme of
"BBC One" from 11:00 to 15:00; it is on air at 14:00, yet `PlayingAt` at 14:00
returns no entry at all: the programme sits in the bucket of 11:00 and the
window starts at 12:00. -/
theorem C4_long_programme_is_missed :
    (∃ p ∈ GoMap.elems (Load (decodeAs longDoc) localUTC [] [] 0).grid,
      p.Channel = "BBC One" ∧ p.Start.ns < sampleTime.ns ∧ sampleTime.ns < p.Stop.ns ∧
      p.Start.ns + 3 * Hour = sampleTime.ns ∧ sampleTime.ns + Hour = p.Stop.ns) ∧
    (Load (decodeAs longDoc) localUTC [] [] 0).exit = Exit.returnedNil ∧
    PlayingAt (Load (decodeAs longDoc) localUTC [] [] 0).grid sampleTime = [] := by
  decide

/-- C5. After a call of `Load` that returns nil, every programme stored in the
bucket of key `k` has a start that rounds to `k`. -/
theorem C5_bucket_is_rounded_start (unmarshal : List UInt8 → Except String xmltv)
    (tzlocal : Int → Int) (t : TvGrid) (s : List UInt8) (heap : Nat)
    (hok : (Load unmarshal tzlocal t s heap).exit = Exit.returnedNil)
    (k : Time) (l : List Programme) (hk : (k, l) ∈ (Load unmarshal tzlocal t s heap).grid)
    (p : Programme) (hp : p ∈ l) : p.Start.Round Hour = k := by
  obtain ⟨x, hx, hch⟩ := Load_ok_inv unmarshal tzlocal t s heap hok
  have hgrid := (Load_ok unmarshal tzlocal t s heap x hx hch).2
  rw [hgrid] at hk
  have hnodup := nodup_foldl_addEntry
    (mkEntries tzlocal (channelTable x.ChannelList) x.ProgrammeList heap) []
    (by simp [GoMap.keys])
  have hl := GoMap.lookup_of_mem _ k l hnodup hk
  rw [lookup_foldl_addEntry] at hl
  split at hl
  · simp [GoMap.lookup] at hl
  · simp only [GoMap.lookup, Option.getD_none, List.nil_append, Option.some.injEq] at hl
    rw [← hl] at hp
    simpa using (List.mem_filter.mp hp).2

/-- C5 on the grid loaded from `sampleDoc`: the third programme, which starts
at 14:05, lies in the bucket of 14:00. -/
theorem C5_bucket_is_rounded_start_witness :
    (Load (decodeAs sampleDoc) localUTC [] [] 0).exit = Exit.returnedNil ∧
    (sampleTime, sampleEntries) ∈ (Load (decodeAs sampleDoc) localUTC [] [] 0).grid ∧
    sampleWeather ∈ sampleEntries ∧
    sampleWeather.Start.Round Hour = sampleTime :=
  ⟨by decide, by decide, by decide,
    C5_bucket_is_rounded_start (decodeAs sampleDoc) localUTC [] [] 0 (by decide)
      sampleTime sampleEntries (by decide) sampleWeather (by decide)⟩

/-- C6. For a decoded document with at least one channel record, `Load` returns
nil and the grid holds one programme per record, parsed or not: the bucket of
every key `k` is the list of converted records (`mkEntries`, in source order)
filtered to those whose rounded start is `k`, no bucket is missing or added,
each key occurs once, and the buckets together hold as many programmes as the
document has records. -/
theorem C6_one_programme_per_record (unmarshal : List UInt8 → Except String xmltv)
    (tzlocal : Int → Int) (t : TvGrid) (s : List UInt8) (heap : Nat) (x : xmltv)
    (hx : unmarshal s = Except.ok x) (hch : x.ChannelList ≠ []) :
    (Load unmarshal tzlocal t s heap).exit = Exit.returnedNil ∧
    (∀ k : Time, (Load unmarshal tzlocal t s heap).grid.lookup k =
      if (mkEntries tzlocal (channelTable x.ChannelList) x.ProgrammeList heap).filter
          (fun e => decide (e.Start.Round Hour = k)) = [] then none
      else some ((mkEntries tzlocal (channelTable x.ChannelList) x.ProgrammeList heap).filter
          (fun e => decide (e.Start.Round Hour = k)))) ∧
    (GoMap.keys (Load unmarshal tzlocal t s heap).grid).Nodup ∧
    (mkEntries tzlocal (channelTable x.ChannelList) x.ProgrammeList heap).length
      = x.ProgrammeList.length ∧
    (GoMap.elems (Load unmarshal tzlocal t s heap).grid).length = x.ProgrammeList.length := by
  obtain ⟨hexit, hgrid⟩ := Load_ok unmarshal tzlocal t s heap x hx hch
  rw [hgrid]
  refine ⟨hexit, ?_, ?_, mkEntries_length _ _ _ _, ?_⟩
  · intro k
    rw [lookup_foldl_addEntry]
    simp [GoMap.lookup]
  · exact nodup_foldl_addEntry _ _ (by simp [GoMap.keys])
  · have hperm := elems_foldl_addEntry
      (mkEntries tzlocal (channelTable x.ChannelList) x.ProgrammeList heap) []
    rw [hperm.length_eq]
    simp [GoMap.elems, mkEntries_length]

/-- C6 on `sampleDoc`: three records, three programmes in the grid. -/
theorem C6_one_programme_per_record_witness :
    decodeAs sampleDoc [] = Except.ok sampleDoc ∧ sampleDoc.ChannelList ≠ [] ∧
    (Load (decodeAs sampleDoc) localUTC [] [] 0).exit = Exit.returnedNil ∧
    (GoMap.elems (Load (decodeAs sampleDoc) localUTC [] [] 0).grid).length = 3 :=
  ⟨rfl, by decide,
    (C6_one_programme_per_record (decodeAs sampleDoc) localUTC [] [] 0 sampleDoc rfl
      (by decide)).1,
    (C6_one_programme_per_record (decodeAs sampleDoc) localUTC [] [] 0 sampleDoc rfl
      (by decide)).2.2.2.2⟩

/-- C7. The list `PlayingAround` holds for channel `c` (the empty list when `c`
is no key) is the concatenation of the buckets at `round(d) - 2h`, `- 1h`,
`round(d)`, `+ 1h`, `+ 2h`, a missing bucket counting as empty, filtered to the
programmes of `c`; and all the lists returned, taken together, are a
rearrangement of that concatenation: each programme of the five buckets is
returned once and nothing else is. -/
theorem C7_around_is_window_by_channel (t : TvGrid) (d : Time) (c : String) :
    ((PlayingAround t d).lookup c).getD [] =
      ((t.lookup ((d.Round Hour).Add (-2 * Hour))).getD [] ++
        ((t.lookup ((d.Round Hour).Add (-1 * Hour))).getD [] ++
          ((t.lookup (d.Round Hour)).getD [] ++
            ((t.lookup ((d.Round Hour).Add Hour)).getD [] ++
              (t.lookup ((d.Round Hour).Add (2 * Hour))).getD [])))).filter
        (fun p => decide (p.Channel = c)) ∧
    (GoMap.elems (PlayingAround t d)).Perm
      ((t.lookup ((d.Round Hour).Add (-2 * Hour))).getD [] ++
        ((t.lookup ((d.Round Hour).Add (-1 * Hour))).getD [] ++
          ((t.lookup (d.Round Hour)).getD [] ++
            ((t.lookup ((d.Round Hour).Add Hour)).getD [] ++
              (t.lookup ((d.Round Hour).Add (2 * Hour))).getD [])))) ∧
    (GoMap.keys (PlayingAround t d)).Nodup := by
  have hw : window t d =
      (t.lookup ((d.Round Hour).Add (-2 * Hour))).getD [] ++
        ((t.lookup ((d.Round Hour).Add (-1 * Hour))).getD [] ++
          ((t.lookup (d.Round Hour)).getD [] ++
            ((t.lookup ((d.Round Hour).Add Hour)).getD [] ++
              (t.lookup ((d.Round Hour).Add (2 * Hour))).getD []))) := by
    simp [window, bucketsAt, aroundTime]
  rw [← hw]
  refine ⟨?_, ?_, PlayingAround_nodup t d⟩
  · rw [PlayingAround_eq, lookup_foldl_aroundStep]
    split
    · rename_i hnil
      simp [GoMap.lookup, hnil]
    · simp [GoMap.lookup]
  · rw [PlayingAround_eq]
    simpa [GoMap.elems] using elems_foldl_aroundStep (window t d) []

/-- C8. In an entry of `PlayingAt` for channel `c`, the next element is the
empty `Programme` when no programme of `c` in the window starts after `d`;
otherwise it is the first programme of earliest start among those: it occurs
in the list of upcoming programmes, every one before it starts strictly
later, every one after it starts no earlier. When the upcoming programmes are
one at `d + 10min` followed by one at `d + 5min`, the second is taken. -/
theorem C8_next_is_first_earliest (t : TvGrid) (d : Time) (c : String) (cur nx : Programme)
    (h : (PlayingAt t d).lookup c = some (cur, nx)) :
    (upcoming t d c = [] → nx = Programme.empty) ∧
    (upcoming t d c ≠ [] → ∃ l1 l2, upcoming t d c = l1 ++ nx :: l2 ∧
      (∀ q ∈ l1, nx.Start.ns < q.Start.ns) ∧ (∀ q ∈ l2, nx.Start.ns ≤ q.Start.ns)) ∧
    (∀ p1 p2, upcoming t d c = [p1, p2] → p1.Start.ns = d.ns + 10 * Minute →
      p2.Start.ns = d.ns + 5 * Minute → nx = p2) := by
  rw [lookup_PlayingAt, foldl_last] at h
  have hnx : nx = ((upcoming t d c).foldl keepEarlier none).getD Programme.empty := by
    cases hlast : ((window t d).filter
        (fun p => decide (p.Channel = c) && onAir d p)).getLast? with
    | none => simp [hlast] at h
    | some p =>
      simp only [hlast, Option.some.injEq, Prod.mk.injEq] at h
      rw [← h.2]
      rfl
  refine ⟨?_, ?_, ?_⟩
  · intro hnil
    rw [hnx, hnil]
    rfl
  · intro hne
    obtain ⟨n, l1, l2, hn, hsplit, h1, h2⟩ := keepEarlier_first (upcoming t d c) hne
    have : nx = n := by rw [hnx, hn]; rfl
    subst this
    exact ⟨l1, l2, hsplit, h1, h2⟩
  · intro p1 p2 hup h1 h2
    have hlt : p2.Start.ns < p1.Start.ns := by
      have hm : (0 : Int) < Minute := by decide
      omega
    rw [hnx, hup]
    simp [keepEarlier, Time.Before, hlt]

/-- C8 on the grid loaded from `sampleDoc` at 14:00: the programme at 14:10
comes first in the window, the one at 14:05 second, and the one at 14:05 is
the next element. -/
theorem C8_next_is_first_earliest_witness :
    (PlayingAt sampleGrid sampleTime).lookup "BBC One" = some (sampleNews, sampleWeather) ∧
    upcoming sampleGrid sampleTime "BBC One" = [sampleFilm, sampleWeather] ∧
    sampleFilm.Start.ns = sampleTime.ns + 10 * Minute ∧
    sampleWeather.Start.ns = sampleTime.ns + 5 * Minute ∧
    (∃ l1 l2, upcoming sampleGrid sampleTime "BBC One" = l1 ++ sampleWeather :: l2 ∧
      (∀ q ∈ l1, sampleWeather.Start.ns < q.Start.ns) ∧
      (∀ q ∈ l2, sampleWeather.Start.ns ≤ q.Start.ns)) :=
  ⟨by decide, by decide, by decide, by decide,
    (C8_next_is_first_earliest sampleGrid sampleTime "BBC One" sampleNews sampleWeather
      (by decide)).2.1 (by decide)⟩

/-- C9. The current element of every entry of `PlayingAt` is a programme of the
window, on the entry's channel, with `Start < d < Stop` strictly; a programme
that starts or stops exactly at `d` is never the current element. -/
theorem C9_current_is_strictly_inside (t : TvGrid) (d : Time) (c : String)
    (cur nx : Programme) (h : (c, (cur, nx)) ∈ PlayingAt t d) :
    cur.Start.ns < d.ns ∧ d.ns < cur.Stop.ns ∧ cur.Start.ns ≠ d.ns ∧ cur.Stop.ns ≠ d.ns ∧
    cur ∈ window t d ∧ cur.Channel = c := by
  have hnodup := PlayingAt_nodup t d
  have hl := GoMap.lookup_of_mem _ c (cur, nx) hnodup h
  rw [lookup_PlayingAt, foldl_last] at hl
  cases hlast : ((window t d).filter
      (fun p => decide (p.Channel = c) && onAir d p)).getLast? with
  | none => simp [hlast] at hl
  | some p =>
    simp only [hlast, Option.some.injEq, Prod.mk.injEq] at hl
    have hmem := List.mem_of_getLast?_eq_some hlast
    rw [hl.1] at hmem
    have hcond := List.mem_filter.mp hmem
    simp only [Bool.and_eq_true, decide_eq_true_eq] at hcond
    have hon := (onAir_iff d cur).mp hcond.2.2
    exact ⟨hon.1, hon.2, by omega, by omega, hcond.1, hcond.2.1⟩

/-- C9 on the grid loaded from `sampleDoc` at 14:00: the current element runs
from 13:30 to 14:05. -/
theorem C9_current_is_strictly_inside_witness :
    ("BBC One", (sampleNews, sampleWeather)) ∈ PlayingAt sampleGrid sampleTime ∧
    sampleNews.Start.ns < sampleTime.ns ∧ sampleTime.ns < sampleNews.Stop.ns :=
  ⟨by decide,
    (C9_current_is_strictly_inside sampleGrid sampleTime "BBC One" sampleNews sampleWeather
      (by decide)).1,
    (C9_current_is_strictly_inside sampleGrid sampleTime "BBC One" sampleNews sampleWeather
      (by decide)).2.1⟩

/-- C10. A channel without a programme in the five buckets around `d` is a key
neither of `PlayingAround` nor of `PlayingAt`; and every key `PlayingAround`
returns holds a list that is not empty and has only programmes of that
channel. -/
theorem C10_absent_channel_has_no_key (t : TvGrid) (d : Time) (c : String)
    (h : ∀ p ∈ window t d, p.Channel ≠ c) :
    c ∉ GoMap.keys (PlayingAround t d) ∧ c ∉ GoMap.keys (PlayingAt t d) ∧
    (∀ (c1 : String) (l : List Programme), (c1, l) ∈ PlayingAround t d →
      l ≠ [] ∧ ∀ p ∈ l, p.Channel = c1) := by
  refine ⟨?_, ?_, ?_⟩
  · rw [← GoMap.lookup_eq_none_iff, PlayingAround_eq, lookup_foldl_aroundStep]
    have hf : (window t d).filter (fun p => decide (p.Channel = c)) = [] := by
      rw [List.filter_eq_nil_iff]
      intro p hp hc
      exact h p hp (by simpa using hc)
    simp [hf, GoMap.lookup]
  · rw [← GoMap.lookup_eq_none_iff, lookup_PlayingAt]
    have hf : (window t d).filter (fun p => decide (p.Channel = c) && onAir d p) = [] := by
      rw [List.filter_eq_nil_iff]
      intro p hp hc
      simp only [Bool.and_eq_true, decide_eq_true_eq] at hc
      exact h p hp hc.1
    rw [hf]
    rfl
  · intro c1 l hmem
    have hl := GoMap.lookup_of_mem _ c1 l (PlayingAround_nodup t d) hmem
    rw [PlayingAround_eq, lookup_foldl_aroundStep] at hl
    split at hl
    · simp [GoMap.lookup] at hl
    · rename_i hne
      simp only [GoMap.lookup, Option.getD_none, List.nil_append, Option.some.injEq] at hl
      subst hl
      refine ⟨hne, ?_⟩
      intro p hp
      simpa using (List.mem_filter.mp hp).2

/-- C10 on the grid loaded from `sampleDoc` at 14:00, for a channel that has no
programme. -/
theorem C10_absent_channel_has_no_key_witness :
    (∀ p ∈ window sampleGrid sampleTime, p.Channel ≠ "ITV") ∧
    "ITV" ∉ GoMap.keys (PlayingAround sampleGrid sampleTime) ∧
    "ITV" ∉ GoMap.keys (PlayingAt sampleGrid sampleTime) :=
  ⟨by decide,
    (C10_absent_channel_has_no_key sampleGrid sampleTime "ITV" (by decide)).1,
    (C10_absent_channel_has_no_key sampleGrid sampleTime "ITV" (by decide)).2.1⟩

/-- C13. When `xml.Unmarshal` fails, `Load` returns that error, and the grid
behind the receiver is the grid it was called on: line 100 is not reached. -/
theorem C13_decode_error_keeps_grid (unmarshal : List UInt8 → Except String xmltv)
    (tzlocal : Int → Int) (t : TvGrid) (s : List UInt8) (heap : Nat) (err : String)
    (h : unmarshal s = Except.error err) :
    (Load unmarshal tzlocal t s heap).exit = Exit.returnedError err ∧
    (Load unmarshal tzlocal t s heap).grid = t ∧
    (Load unmarshal tzlocal t s heap).heap = heap := by
  simp [Load, h]

/-- C13 on a decoder that rejects its input, with the sample grid as the grid
before the call. -/
theorem C13_decode_error_keeps_grid_witness :
    decodeFails [] = Except.error "unexpected EOF" ∧
    (Load decodeFails localUTC sampleGrid [] 0).exit = Exit.returnedError "unexpected EOF" ∧
    (Load decodeFails localUTC sampleGrid [] 0).grid = sampleGrid :=
  ⟨rfl,
    (C13_decode_error_keeps_grid decodeFails localUTC sampleGrid [] 0 "unexpected EOF" rfl).1,
    (C13_decode_error_keeps_grid decodeFails localUTC sampleGrid [] 0 "unexpected EOF" rfl).2.1⟩

/-- C16. `Round(time.Hour)` sends `t` to the one whole-hour boundary `h` with
`h - 30min ≤ t < h + 30min`, in the location of `t`: 30 minutes past the hour
goes to the next hour, 29 minutes 59 seconds past goes back, and a rounded
time is left as it is. `Load` files an entry under this rounding of its start
(line 92) and `aroundTime` centres the window on this rounding of `d`
(line 105). -/
theorem C16_round_to_nearest_hour (t : Time) :
    (t.Round Hour).ns % Hour = 0 ∧
    (t.Round Hour).ns - 30 * Minute ≤ t.ns ∧ t.ns < (t.Round Hour).ns + 30 * Minute ∧
    (t.Round Hour).loc = t.loc ∧
    (∀ h : Int, h % Hour = 0 → h - 30 * Minute ≤ t.ns → t.ns < h + 30 * Minute →
      (t.Round Hour).ns = h) ∧
    (t.ns % Hour = 30 * Minute → (t.Round Hour).ns = t.ns + 30 * Minute) ∧
    (t.ns % Hour = 29 * Minute + 59 * Second →
      (t.Round Hour).ns = t.ns - (29 * Minute + 59 * Second)) ∧
    (t.Round Hour).Round Hour = t.Round Hour ∧
    (∀ (g : TvGrid) (e : Programme), e.Start = t →
      ∃ l, (addEntry g e).lookup (t.Round Hour) = some (l ++ [e])) ∧
    aroundTime t = [(t.Round Hour).Add (-2 * Hour), (t.Round Hour).Add (-1 * Hour),
      t.Round Hour, (t.Round Hour).Add Hour, (t.Round Hour).Add (2 * Hour)] := by
  refine ⟨Round_mod t, (Round_near t).1, (Round_near t).2, Round_loc t,
    fun h h1 h2 h3 => Round_unique t h h1 h2 h3, ?_, ?_, Round_idem t, ?_, rfl⟩
  · intro h
    rw [Round_ns]
    rw [Hour_eq, Minute_eq] at h
    rw [Hour_eq, Minute_eq]
    split <;> omega
  · intro h
    rw [Round_ns]
    rw [Hour_eq, Minute_eq, Second_eq] at h
    rw [Hour_eq, Minute_eq, Second_eq]
    split <;> omega
  · intro g e he
    subst he
    exact ⟨(g.lookup (e.Start.Round Hour)).getD [], by rw [lookup_addEntry]; simp⟩

/-- C17. A channel with a programme on air in the window has an entry in
`PlayingAt`, and the current element of the entry is the last programme of the
channel on air in window order: no programme of the channel that comes later
in the window is on air. -/
theorem C17_current_is_last_on_air (t : TvGrid) (d : Time) (c : String)
    (h : ∃ p ∈ window t d, p.Channel = c ∧ p.Start.ns < d.ns ∧ d.ns < p.Stop.ns) :
    ∃ cur nx l1 l2, (PlayingAt t d).lookup c = some (cur, nx) ∧
      window t d = l1 ++ cur :: l2 ∧
      cur.Channel = c ∧ cur.Start.ns < d.ns ∧ d.ns < cur.Stop.ns ∧
      ∀ q ∈ l2, ¬ (q.Channel = c ∧ q.Start.ns < d.ns ∧ d.ns < q.Stop.ns) := by
  have hne : (window t d).filter (fun p => decide (p.Channel = c) && onAir d p) ≠ [] := by
    obtain ⟨p, hp, hc, h1, h2⟩ := h
    intro hnil
    have hmem : p ∈ (window t d).filter (fun p => decide (p.Channel = c) && onAir d p) := by
      rw [List.mem_filter]
      refine ⟨hp, ?_⟩
      simp only [Bool.and_eq_true, decide_eq_true_eq]
      exact ⟨hc, (onAir_iff d p).mpr ⟨h1, h2⟩⟩
    rw [hnil] at hmem
    simp at hmem
  obtain ⟨l1, cur, l2, hsplit, hcur, hrest, hlast⟩ := filter_getLast_split _ _ hne
  simp only [Bool.and_eq_true, decide_eq_true_eq] at hcur
  have hon := (onAir_iff d cur).mp hcur.2
  refine ⟨cur, (((window t d).filter (fun p => decide (p.Channel = c) && d.Before p.Start)).foldl
      keepEarlier none).getD Programme.empty, l1, l2, ?_, hsplit, hcur.1, hon.1, hon.2, ?_⟩
  · rw [lookup_PlayingAt, foldl_last, hlast]
  · intro q hq hcond
    have := hrest q hq
    simp only [Bool.and_eq_false_iff, decide_eq_false_iff_not] at this
    rcases this with h1 | h2
    · exact h1 hcond.1
    · have hq2 := (onAir_iff d q).mpr ⟨hcond.2.1, hcond.2.2⟩
      rw [hq2] at h2
      cases h2

/-- C17 on the grid loaded from `overlapDoc` at 14:00: "Film" and "News" are
both on air, "News" is met later and is the current element. -/
theorem C17_current_is_last_on_air_witness :
    (∃ p ∈ window (Load (decodeAs overlapDoc) localUTC [] [] 0).grid sampleTime,
      p.Channel = "BBC One" ∧ p.Start.ns < sampleTime.ns ∧ sampleTime.ns < p.Stop.ns) ∧
    ((window (Load (decodeAs overlapDoc) localUTC [] [] 0).grid sampleTime).map
      (fun p => p.Title) = ["Film", "News"]) ∧
    (((PlayingAt (Load (decodeAs overlapDoc) localUTC [] [] 0).grid sampleTime).lookup
      "BBC One").map (fun pair => pair.1.Title) = some "News") ∧
    (∃ cur nx l1 l2,
      (PlayingAt (Load (decodeAs overlapDoc) localUTC [] [] 0).grid sampleTime).lookup "BBC One"
        = some (cur, nx) ∧
      window (Load (decodeAs overlapDoc) localUTC [] [] 0).grid sampleTime = l1 ++ cur :: l2 ∧
      cur.Channel = "BBC One" ∧ cur.Start.ns < sampleTime.ns ∧ sampleTime.ns < cur.Stop.ns ∧
      ∀ q ∈ l2, ¬ (q.Channel = "BBC One" ∧ q.Start.ns < sampleTime.ns ∧
        sampleTime.ns < q.Stop.ns)) :=
  ⟨by decide, by decide, by decide,
    C17_current_is_last_on_air (Load (decodeAs overlapDoc) localUTC [] [] 0).grid sampleTime
      "BBC One" (by decide)⟩

/-- C20. After a call of `Load` that returns nil, every bucket key is a
whole-hour boundary, which rounding leaves as it is, and its bucket is not
empty. The five times of `aroundTime` are whole-hour boundaries, each one hour
after the one before, so no two are equal, and rounding leaves each as it
is. -/
theorem C20_keys_are_hours_buckets_nonempty (unmarshal : List UInt8 → Except String xmltv)
    (tzlocal : Int → Int) (t : TvGrid) (s : List UInt8) (heap : Nat)
    (hok : (Load unmarshal tzlocal t s heap).exit = Exit.returnedNil) :
    (∀ (k : Time) (l : List Programme), (k, l) ∈ (Load unmarshal tzlocal t s heap).grid →
      k.ns % Hour = 0 ∧ k.Round Hour = k ∧ l ≠ []) ∧
    (∀ d : Time,
      (aroundTime d).map (fun h => h.ns) =
        [(d.Round Hour).ns - 2 * Hour, (d.Round Hour).ns - Hour, (d.Round Hour).ns,
          (d.Round Hour).ns + Hour, (d.Round Hour).ns + 2 * Hour] ∧
      (aroundTime d).Nodup ∧
      ∀ h ∈ aroundTime d, h.ns % Hour = 0 ∧ h.Round Hour = h ∧ h.loc = d.loc) := by
  obtain ⟨x, hx, hch⟩ := Load_ok_inv unmarshal tzlocal t s heap hok
  have hgrid := (Load_ok unmarshal tzlocal t s heap x hx hch).2
  refine ⟨?_, ?_⟩
  · intro k l hk
    rw [hgrid] at hk
    obtain ⟨hl, hne⟩ := mem_foldl_addEntry _ k l hk
    obtain ⟨e, he⟩ := List.exists_mem_of_ne_nil l hne
    rw [hl] at he
    have hround : e.Start.Round Hour = k := by
      simpa using (List.mem_filter.mp he).2
    rw [← hround]
    exact ⟨Round_mod _, Round_idem _, hne⟩
  · intro d
    have hmod := Round_mod d
    have hloc := Round_loc d
    have hns : (aroundTime d).map (fun h => h.ns) =
        [(d.Round Hour).ns - 2 * Hour, (d.Round Hour).ns - Hour, (d.Round Hour).ns,
          (d.Round Hour).ns + Hour, (d.Round Hour).ns + 2 * Hour] := by
      simp only [aroundTime, Time.Add, List.map_cons, List.map_nil]
      rw [Hour_eq]
      simp only [List.cons.injEq, and_true]
      omega
    refine ⟨hns, ?_, ?_⟩
    · apply List.Nodup.of_map (fun h => h.ns)
      rw [hns, Hour_eq]
      generalize (d.Round 3600000000000).ns = r
      simp only [List.nodup_cons, List.mem_cons, List.mem_singleton, List.not_mem_nil,
        not_false_eq_true, List.nodup_nil, and_true, or_false]
      omega
    · intro h hh
      simp only [aroundTime, List.mem_cons, List.mem_singleton, List.not_mem_nil, or_false] at hh
      have key : ∀ k : Int, ((d.Round Hour).Add (k * Hour)).ns % Hour = 0 ∧
          ((d.Round Hour).Add (k * Hour)).Round Hour = (d.Round Hour).Add (k * Hour) ∧
          ((d.Round Hour).Add (k * Hour)).loc = d.loc := by
        intro k
        have h1 := Add_Hour_mod (d.Round Hour) k hmod
        exact ⟨h1, Round_fixed _ h1, hloc⟩
      rcases hh with hh | hh | hh | hh | hh
      · subst hh
        exact key (-2)
      · subst hh
        exact key (-1)
      · subst hh
        exact ⟨hmod, Round_idem d, hloc⟩
      · subst hh
        have := key 1
        simpa using this
      · subst hh
        exact key 2

/-- C20 on the grid loaded from `sampleDoc`, whose one bucket is that of
14:00. -/
theorem C20_keys_are_hours_buckets_nonempty_witness :
    (Load (decodeAs sampleDoc) localUTC [] [] 0).exit = Exit.returnedNil ∧
    (sampleTime, sampleEntries) ∈ (Load (decodeAs sampleDoc) localUTC [] [] 0).grid ∧
    (sampleTime.ns % Hour = 0 ∧ sampleTime.Round Hour = sampleTime ∧ sampleEntries ≠ []) :=
  ⟨by decide, by decide,
    (C20_keys_are_hours_buckets_nonempty (decodeAs sampleDoc) localUTC [] [] 0 (by decide)).1
      sampleTime sampleEntries (by decide)⟩

/-- C11. For a decoded document with at least one channel record, the entry
made from a programme record has as its channel the display name of the last
channel record whose identifier is the record's channel reference, and the
empty string when no channel record has that identifier. The entries are what
the grid holds. -/
theorem C11_channel_is_last_alias (unmarshal : List UInt8 → Except String xmltv)
    (tzlocal : Int → Int) (t : TvGrid) (s : List UInt8) (heap : Nat) (x : xmltv)
    (hx : unmarshal s = Except.ok x) (hch : x.ChannelList ≠ []) :
    (Load unmarshal tzlocal t s heap).exit = Exit.returnedNil ∧
    (GoMap.elems (Load unmarshal tzlocal t s heap).grid).Perm
      (mkEntries tzlocal (channelTable x.ChannelList) x.ProgrammeList heap) ∧
    List.Forall₂
      (fun r e =>
        e.Channel = (((x.ChannelList.filter (fun ch => decide (ch.Id = r.Channel))).getLast?).map
          (fun ch => ch.Name)).getD "" ∧
        ((∀ ch ∈ x.ChannelList, ch.Id ≠ r.Channel) → e.Channel = ""))
      x.ProgrammeList (mkEntries tzlocal (channelTable x.ChannelList) x.ProgrammeList heap) := by
  obtain ⟨hexit, hgrid⟩ := Load_ok unmarshal tzlocal t s heap x hx hch
  refine ⟨hexit, ?_, ?_⟩
  · rw [hgrid]
    simpa [GoMap.elems] using elems_foldl_addEntry
      (mkEntries tzlocal (channelTable x.ChannelList) x.ProgrammeList heap) []
  · refine (mkEntries_forall2 tzlocal _ x.ProgrammeList heap).imp ?_
    rintro r e ⟨h, rfl⟩
    have hc := (mkEntry_fields tzlocal (channelTable x.ChannelList) r h).1
    rw [lookup_channelTable] at hc
    refine ⟨hc, ?_⟩
    intro hnone
    have hf : x.ChannelList.filter (fun ch => decide (ch.Id = r.Channel)) = [] := by
      rw [List.filter_eq_nil_iff]
      intro ch hmem hid
      exact hnone ch hmem (by simpa using hid)
    rw [hc, hf]
    rfl

/-- C11 on `aliasDoc`: identifier "1" is declared twice and takes the later name
"BBC One"; identifier "99" is not declared and gives the empty string. -/
theorem C11_channel_is_last_alias_witness :
    decodeAs aliasDoc [] = Except.ok aliasDoc ∧ aliasDoc.ChannelList ≠ [] ∧
    aliasDoc.ProgrammeList.map (fun r => r.Channel) = ["1", "99"] ∧
    (mkEntries localUTC (channelTable aliasDoc.ChannelList) aliasDoc.ProgrammeList 0).map
      (fun e => e.Channel) = ["BBC One", ""] ∧
    List.Forall₂
      (fun r e =>
        e.Channel = (((aliasDoc.ChannelList.filter
          (fun ch => decide (ch.Id = r.Channel))).getLast?).map (fun ch => ch.Name)).getD "" ∧
        ((∀ ch ∈ aliasDoc.ChannelList, ch.Id ≠ r.Channel) → e.Channel = ""))
      aliasDoc.ProgrammeList
      (mkEntries localUTC (channelTable aliasDoc.ChannelList) aliasDoc.ProgrammeList 0) :=
  ⟨rfl, by decide, by decide, by decide,
    (C11_channel_is_last_alias (decodeAs aliasDoc) localUTC [] [] 0 aliasDoc rfl
      (by decide)).2.2⟩

/-- C18. For a decoded document with at least one channel record `Load` returns
nil whatever the timestamps are. In the entry made from a record, a start that
`time.Parse` rejects under `xmldateformat` leaves `Start` at the zero
timestamp, and likewise a stop; start and stop are parsed one without regard
to the other, the remaining fields are copied or derived as for any record,
and every entry whose `Start` is the zero timestamp is in the bucket of the
zero timestamp. -/
theorem C18_unparsed_time_is_zero (unmarshal : List UInt8 → Except String xmltv)
    (tzlocal : Int → Int) (t : TvGrid) (s : List UInt8) (heap : Nat) (x : xmltv)
    (hx : unmarshal s = Except.ok x) (hch : x.ChannelList ≠ []) :
    (Load unmarshal tzlocal t s heap).exit = Exit.returnedNil ∧
    (GoMap.elems (Load unmarshal tzlocal t s heap).grid).Perm
      (mkEntries tzlocal (channelTable x.ChannelList) x.ProgrammeList heap) ∧
    List.Forall₂
      (fun r e =>
        ((Parse tzlocal xmldateformat.data r.Start.data 0).1 = none → e.Start = Time.zero) ∧
        ((Parse tzlocal xmldateformat.data r.Stop.data 0).1 = none → e.Stop = Time.zero) ∧
        (∃ h, e.Start = (parseOrZero tzlocal r.Start h).1) ∧
        (∃ h, e.Stop = (parseOrZero tzlocal r.Stop h).1) ∧
        e.Channel = ((channelTable x.ChannelList).lookup r.Channel).getD "" ∧
        e.Title = r.Title ∧ e.SubTitle = r.SubTitle ∧ e.Description = r.Description ∧
        e.Credits = r.Credits ∧ e.Date = r.Date ∧ e.Categories = r.Categories ∧
        e.Rating = r.Rating ∧ e.Length = (e.Stop.Sub e.Start).minutesInt)
      x.ProgrammeList (mkEntries tzlocal (channelTable x.ChannelList) x.ProgrammeList heap) ∧
    (∀ e ∈ mkEntries tzlocal (channelTable x.ChannelList) x.ProgrammeList heap,
      e.Start = Time.zero →
      ∃ l, (Load unmarshal tzlocal t s heap).grid.lookup Time.zero = some l ∧ e ∈ l) := by
  obtain ⟨hexit, hgrid⟩ := Load_ok unmarshal tzlocal t s heap x hx hch
  refine ⟨hexit, ?_, ?_, ?_⟩
  · rw [hgrid]
    simpa [GoMap.elems] using elems_foldl_addEntry
      (mkEntries tzlocal (channelTable x.ChannelList) x.ProgrammeList heap) []
  · refine (mkEntries_forall2 tzlocal _ x.ProgrammeList heap).imp ?_
    rintro r e ⟨h, rfl⟩
    obtain ⟨f1, f2, f3, f4, f5, f6, f7, f8, f9⟩ :=
      mkEntry_fields tzlocal (channelTable x.ChannelList) r h
    obtain ⟨hstart, hstop⟩ := mkEntry_times tzlocal (channelTable x.ChannelList) r h
    refine ⟨?_, ?_, ⟨h, hstart⟩, ⟨_, hstop⟩, f1, f2, f3, f4, f5, f6, f7, f8, f9⟩
    · intro hfail
      rw [hstart]
      exact parseOrZero_none tzlocal tzlocal r.Start 0 h hfail
    · intro hfail
      rw [hstop]
      exact parseOrZero_none tzlocal tzlocal r.Stop 0 _ hfail
  · intro e he hzero
    have hmem : e ∈ (mkEntries tzlocal (channelTable x.ChannelList) x.ProgrammeList heap).filter
        (fun e => decide (e.Start.Round Hour = Time.zero)) := by
      rw [List.mem_filter]
      refine ⟨he, ?_⟩
      simp only [decide_eq_true_eq]
      rw [hzero]
      exact zero_Round
    refine ⟨(mkEntries tzlocal (channelTable x.ChannelList) x.ProgrammeList heap).filter
        (fun e => decide (e.Start.Round Hour = Time.zero)), ?_, hmem⟩
    rw [hgrid, lookup_foldl_addEntry]
    have hne : (mkEntries tzlocal (channelTable x.ChannelList) x.ProgrammeList heap).filter
        (fun e => decide (e.Start.Round Hour = Time.zero)) ≠ [] :=
      List.ne_nil_of_mem hmem
    simp [hne, GoMap.lookup]

/-- C18 on `malformedDoc`: the first record has a start that is no timestamp,
the second a stop that is none; the first entry has the zero start and lies in
the bucket of the zero timestamp. -/
theorem C18_unparsed_time_is_zero_witness :
    decodeAs malformedDoc [] = Except.ok malformedDoc ∧ malformedDoc.ChannelList ≠ [] ∧
    (Parse localUTC xmldateformat.data "2023-01-15 14:00".data 0).1 = none ∧
    (Parse localUTC xmldateformat.data "yesterday".data 0).1 = none ∧
    (Load (decodeAs malformedDoc) localUTC [] [] 0).exit = Exit.returnedNil ∧
    (mkEntries localUTC (channelTable malformedDoc.ChannelList) malformedDoc.ProgrammeList 0).map
      (fun e => (e.Title, e.Start.ns, e.Stop.ns)) =
        [("News", 0, 63809389800 * Second), ("Film", 63809388000 * Second, 0)] ∧
    (∀ e ∈ mkEntries localUTC (channelTable malformedDoc.ChannelList)
        malformedDoc.ProgrammeList 0,
      e.Start = Time.zero →
      ∃ l, (Load (decodeAs malformedDoc) localUTC [] [] 0).grid.lookup Time.zero = some l ∧
        e ∈ l) :=
  ⟨rfl, by decide, by decide, by decide,
    (C18_unparsed_time_is_zero (decodeAs malformedDoc) localUTC [] [] 0 malformedDoc rfl
      (by decide)).1,
    by decide,
    (C18_unparsed_time_is_zero (decodeAs malformedDoc) localUTC [] [] 0 malformedDoc rfl
      (by decide)).2.2.2⟩

/-- C12, the claim as stated fails: both timestamps of `farApartDoc` parse, they
are 5258964959 minutes apart, and `Length` is 153722867: `Sub` returns the
largest `Duration`, about 292 years. -/
theorem C12_far_apart_saturates :
    (Parse localUTC xmldateformat.data "00010101000000 +0000".data 0).1 ≠ none ∧
    (Parse localUTC xmldateformat.data "99991231235900 +0000".data 0).1 ≠ none ∧
    (mkEntries localUTC (channelTable farApartDoc.ChannelList) farApartDoc.ProgrammeList 0).map
      (fun e => (e.Start.ns, e.Stop.ns, e.Length))
        = [(0, 5258964959 * Minute, 153722867)] ∧
    ¬ ((153722867 : Int) * Minute ≤ 5258964959 * Minute - 0 ∧
      5258964959 * Minute - 0 < ((153722867 : Int) + 1) * Minute) := by
  decide

/-- C12 as amended. For a decoded document with at least one channel record and
a record whose start and stop both parse: the two instants are whole minutes,
and when their difference fits a `Duration` (they are less than `2 ^ 63`
nanoseconds, about 292 years, apart) `Length` is that difference in minutes,
exactly, so `Length` minutes `≤ stop - start <` `Length + 1` minutes. When the
stop lies further after the start `Length` is 153722867, when it lies further
before the start `Length` is -153722867. -/
theorem C12_length_is_minutes_in_range (unmarshal : List UInt8 → Except String xmltv)
    (tzlocal : Int → Int) (t : TvGrid) (s : List UInt8) (heap : Nat) (x : xmltv)
    (hx : unmarshal s = Except.ok x) (hch : x.ChannelList ≠ []) :
    (Load unmarshal tzlocal t s heap).exit = Exit.returnedNil ∧
    (GoMap.elems (Load unmarshal tzlocal t s heap).grid).Perm
      (mkEntries tzlocal (channelTable x.ChannelList) x.ProgrammeList heap) ∧
    List.Forall₂
      (fun r e =>
        (Parse tzlocal xmldateformat.data r.Start.data 0).1 ≠ none →
        (Parse tzlocal xmldateformat.data r.Stop.data 0).1 ≠ none →
        (∃ h, (Parse tzlocal xmldateformat.data r.Start.data h).1 = some e.Start) ∧
        (∃ h, (Parse tzlocal xmldateformat.data r.Stop.data h).1 = some e.Stop) ∧
        e.Start.ns % Minute = 0 ∧ e.Stop.ns % Minute = 0 ∧
        (minDuration ≤ e.Stop.ns - e.Start.ns → e.Stop.ns - e.Start.ns ≤ maxDuration →
          e.Length * Minute = e.Stop.ns - e.Start.ns ∧
          e.Length * Minute ≤ e.Stop.ns - e.Start.ns ∧
          e.Stop.ns - e.Start.ns < (e.Length + 1) * Minute) ∧
        ((2 : Int) ^ 63 - 1 < e.Stop.ns - e.Start.ns → e.Length = 153722867) ∧
        (e.Stop.ns - e.Start.ns < -(2 : Int) ^ 63 → e.Length = -153722867))
      x.ProgrammeList (mkEntries tzlocal (channelTable x.ChannelList) x.ProgrammeList heap) := by
  obtain ⟨hexit, hgrid⟩ := Load_ok unmarshal tzlocal t s heap x hx hch
  refine ⟨hexit, ?_, ?_⟩
  · rw [hgrid]
    simpa [GoMap.elems] using elems_foldl_addEntry
      (mkEntries tzlocal (channelTable x.ChannelList) x.ProgrammeList heap) []
  · refine (mkEntries_forall2 tzlocal _ x.ProgrammeList heap).imp ?_
    rintro r e ⟨h, rfl⟩ hstart hstop
    obtain ⟨estart, estop⟩ := mkEntry_times tzlocal (channelTable x.ChannelList) r h
    have hlen := (mkEntry_fields tzlocal (channelTable x.ChannelList) r h).2.2.2.2.2.2.2.2
    have p1 := parseOrZero_some tzlocal tzlocal r.Start 0 h hstart
    have p2 := parseOrZero_some tzlocal tzlocal r.Stop 0
      (parseOrZero tzlocal r.Start h).2 hstop
    rw [← estart] at p1
    rw [← estop] at p2
    have m1 := Parse_whole_minute _ _ _ _ _ p1
    have m2 := Parse_whole_minute _ _ _ _ _ p2
    refine ⟨⟨_, p1⟩, ⟨_, p2⟩, m1, m2, ?_, ?_, ?_⟩
    rotate_left
    · intro hbig
      rw [hlen, Sub_above _ _ hbig]
      exact minutesInt_max
    · intro hsmall
      rw [hlen, Sub_below _ _ hsmall]
      exact minutesInt_min
    intro hlo hhi
    have hsub := Sub_of_range _ _ hlo hhi
    have hmod : ((mkEntry tzlocal (channelTable x.ChannelList) r h).1.Stop.ns -
        (mkEntry tzlocal (channelTable x.ChannelList) r h).1.Start.ns) % Minute = 0 := by
      rw [Minute_eq] at m1 m2 ⊢
      omega
    have hexact := minutesInt_exact _ hmod
    rw [← hsub, ← hlen] at hexact
    rw [hsub] at hexact
    refine ⟨hexact, le_of_eq hexact, ?_⟩
    rw [← hexact, Int.add_mul, Int.one_mul]
    exact Int.lt_add_of_pos_right _ (by decide)

/-- C12 as amended, on `aliasDoc`: start `20230115140000 +0000` and stop
`20230115143000 +0000` give `Length` 30. -/
theorem C12_length_is_minutes_in_range_witness :
    decodeAs aliasDoc [] = Except.ok aliasDoc ∧ aliasDoc.ChannelList ≠ [] ∧
    aliasDoc.ProgrammeList.map (fun r => (r.Start, r.Stop)) =
      [("20230115140000 +0000", "20230115143000 +0000"),
       ("20230115140000 +0000", "20230115143000 +0000")] ∧
    (Parse localUTC xmldateformat.data "20230115140000 +0000".data 0).1 ≠ none ∧
    (Parse localUTC xmldateformat.data "20230115143000 +0000".data 0).1 ≠ none ∧
    (mkEntries localUTC (channelTable aliasDoc.ChannelList) aliasDoc.ProgrammeList 0).map
      (fun e => e.Length) = [30, 30] ∧
    (Load (decodeAs aliasDoc) localUTC [] [] 0).exit = Exit.returnedNil :=
  ⟨rfl, by decide, by decide, by decide, by decide, by decide,
    (C12_length_is_minutes_in_range (decodeAs aliasDoc) localUTC [] [] 0 aliasDoc rfl
      (by decide)).1⟩

/-- C15. The text of a programme is "(" channel ") " HH ":" MM ": " title " - "
length "m". HH and MM are the hour and the minute of the day at the instant
`Start`, read on the clock of the location `Start` carries: with `sec` the
whole seconds of `Start` since the zero time plus the offset of that location
(none for UTC, the offset of the zone for a fixed zone, the offset of the
local zone at that instant for `time.Local`), `HH * 3600 + MM * 60` is the
start of the minute of the day that `sec` falls in; both are written with two
digits. The length is in decimal, with a minus sign when it is negative. The
programme of the spec's example reads `(BBC One) 20:00: News - 30m`; a start
at 13:10 UTC reads 14:10 in zone `+0100` and 08:10 on a machine five hours
west of UTC. -/
theorem C15_string_of_programme (tzlocal : Int → Int) (p : Programme) :
    (∃ (off sec : Int) (hh mm : Nat),
      (p.Start.loc = Location.utc → off = 0) ∧
      (p.Start.loc = Location.localZone →
        off = tzlocal (p.Start.ns / 1000000000 - 62135596800)) ∧
      (∀ (o : Int) (cell : Option Nat), p.Start.loc = Location.fixed o cell → off = o) ∧
      sec = p.Start.ns / 1000000000 + off ∧
      hh < 24 ∧ mm < 60 ∧
      (hh : Int) * 3600 + (mm : Int) * 60 ≤ sec % 86400 ∧
      sec % 86400 < (hh : Int) * 3600 + (mm : Int) * 60 + 60 ∧
      p.String tzlocal =
        "(" ++ p.Channel ++ ") " ++
          String.mk [Char.ofNat (48 + hh / 10), Char.ofNat (48 + hh % 10), ':',
            Char.ofNat (48 + mm / 10), Char.ofNat (48 + mm % 10)] ++
          ": " ++ p.Title ++ " - " ++ toString p.Length ++ "m") ∧
    newsAtEight.String tzlocal = "(BBC One) 20:00: News - 30m" ∧
    filmPlusOne.String tzlocal = "(BBC One) 14:10: Film - 90m" ∧
    quizLocal.String (fun _ => -18000) = "(BBC One) 08:10: Quiz - -5m" ∧
    quizLocal.String (fun unix => if unix < 1673787000 then 0 else 3600)
      = "(BBC One) 14:10: Quiz - -5m" := by
  obtain ⟨hh, hm, h1, h2⟩ := clock_bounds tzlocal p.Start
  have hex : newsAtEight.String tzlocal = newsAtEight.String localUTC := by
    simp only [Programme.String, Time.Format, Time.clockHour, Time.clockMinute, Time.clockSec,
      newsAtEight, Location.offsetAt]
  have hex2 : filmPlusOne.String tzlocal = filmPlusOne.String localUTC := by
    simp only [Programme.String, Time.Format, Time.clockHour, Time.clockMinute, Time.clockSec,
      filmPlusOne, newsAtEight, Location.offsetAt]
  refine ⟨⟨p.Start.loc.offsetAt tzlocal (p.Start.ns / Second - unixToInternal),
    p.Start.clockSec tzlocal, p.Start.clockHour tzlocal, p.Start.clockMinute tzlocal,
    ?_, ?_, ?_, rfl, hh, hm, h1, h2, ?_⟩,
    by rw [hex]; decide, by rw [hex2]; decide, by decide, by decide⟩
  · intro hl
    rw [hl]
    rfl
  · intro hl
    rw [hl]
    rfl
  · intro o cell hl
    rw [hl]
    rfl
  apply String.ext
  have hs : (p.String tzlocal).data =
      sprintf ['(', '%', 's', ')', ' ', '%', 's', ':', ' ', '%', 's', ' ', '-', ' ', '%', 'd', 'm']
        [Arg.str p.Channel.data, Arg.str (p.Start.Format tzlocal ['1', '5', ':', '0', '4']),
          Arg.str p.Title.data, Arg.int p.Length] := rfl
  rw [hs, sprintf_line, Format_clock,
    appendInt_two _ (Nat.lt_of_lt_of_le hh (by decide)),
    appendInt_two _ (Nat.lt_of_lt_of_le hm (by decide))]
  simp [String.data_append]

/-- C19 (defect in the code). Bucket keys are `time.Time` values and Go compares
them with their location. The programme of `zoneDoc` starts at 13:10 UTC,
50 minutes before the query time 14:00 UTC; its key carries the zone `+0100`
of the document, the query time the local zone, and `PlayingAround` returns
nothing. What the code does deliver: a programme within two hours of `d` is
found when its start has the location of `d`, and whatever is returned starts
less than three hours from `d`. -/
theorem C19_window_misses_other_zone :
    ((Load (decodeAs zoneDoc) localUTC [] [] 0).exit = Exit.returnedNil ∧
      (∀ kv ∈ (Load (decodeAs zoneDoc) localUTC [] [] 0).grid, ∀ p ∈ kv.2,
        p.Start.Round Hour = kv.1) ∧
      (∃ p ∈ GoMap.elems (Load (decodeAs zoneDoc) localUTC [] [] 0).grid,
        p.Start.ns + 50 * Minute = sampleTime.ns ∧
        p.Start.Round Hour ∉ aroundTime sampleTime ∧
        p.Start.loc = Location.fixed 3600 none ∧ sampleTime.loc = Location.localZone) ∧
      PlayingAround (Load (decodeAs zoneDoc) localUTC [] [] 0).grid sampleTime = []) ∧
    (∀ (t : TvGrid) (d k : Time) (l : List Programme) (p : Programme),
      t.lookup k = some l → p ∈ l → p.Start.Round Hour = k →
      p.Start.ns - d.ns ≤ 2 * Hour → d.ns - p.Start.ns ≤ 2 * Hour → p.Start.loc = d.loc →
      k ∈ aroundTime d ∧ p ∈ ((PlayingAround t d).lookup p.Channel).getD []) ∧
    (∀ (t : TvGrid) (d : Time),
      (∀ k l, t.lookup k = some l → ∀ p ∈ l, p.Start.Round Hour = k) →
      ∀ (c : String) (l : List Programme) (p : Programme), (c, l) ∈ PlayingAround t d → p ∈ l →
        p.Start.ns - d.ns < 3 * Hour ∧ d.ns - p.Start.ns < 3 * Hour) := by
  refine ⟨by decide, ?_, ?_⟩
  · intro t d k l p hk hp hround h1 h2 hloc
    have hkmem : k ∈ aroundTime d := by
      rw [mem_aroundTime]
      have n1 := Round_near p.Start
      have n2 := Round_near d
      have m1 := Round_mod p.Start
      have m2 := Round_mod d
      have l1 := Round_loc p.Start
      rw [hround] at n1 m1 l1
      refine ⟨by rw [l1, hloc], ?_⟩
      generalize (d.Round Hour).ns = r at n2 m2 ⊢
      rw [Hour_eq] at m1 m2 h1 h2 ⊢
      rw [Minute_eq] at n1 n2
      omega
    refine ⟨hkmem, ?_⟩
    rw [PlayingAround_getD, List.mem_filter]
    refine ⟨?_, by simp⟩
    rw [window, mem_bucketsAt]
    exact ⟨k, hkmem, by rw [hk]; exact hp⟩
  · intro t d hinv c l p hmem hp
    have hl := GoMap.lookup_of_mem _ c l (PlayingAround_nodup t d) hmem
    have hget : ((PlayingAround t d).lookup c).getD [] = l := by rw [hl]; rfl
    rw [PlayingAround_getD] at hget
    rw [← hget] at hp
    have hw := (List.mem_filter.mp hp).1
    rw [window, mem_bucketsAt] at hw
    obtain ⟨k, hk, hpk⟩ := hw
    cases hlk : t.lookup k with
    | none => simp [hlk] at hpk
    | some lk =>
      rw [hlk] at hpk
      have hround := hinv k lk hlk p hpk
      rw [mem_aroundTime] at hk
      have n1 := Round_near p.Start
      have n2 := Round_near d
      rw [hround] at n1
      generalize (d.Round Hour).ns = r at n2 hk
      rw [Hour_eq] at hk ⊢
      rw [Minute_eq] at n1 n2
      omega

/-- C14, the claim as stated fails: `allocDoc` has timestamps of zone `+0530`,
for which every call of `Parse` allocates a zone of its own. Loaded a second
time right after the first, it gives a grid that is not the first grid: the
keys differ, and no key of the first grid is a key of the second. -/
theorem C14_reload_has_other_keys :
    allocOnce.exit = Exit.returnedNil ∧ allocTwice.exit = Exit.returnedNil ∧
    allocTwice.grid ≠ allocOnce.grid ∧
    GoMap.keys allocTwice.grid ≠ GoMap.keys allocOnce.grid ∧
    (∀ k ∈ GoMap.keys allocOnce.grid, allocTwice.grid.lookup k = none) ∧
    (GoMap.keys allocOnce.grid).map (fun k => k.ns) =
      (GoMap.keys allocTwice.grid).map (fun k => k.ns) := by
  decide

/-- C14 as amended. A call of `Load` that returns nil replaces the grid, and what
it builds does not depend on the grid before. For one document, whatever the
grids before (`g1`, `g2`) and whatever the zones allocated earlier (`h1`,
`h2`): both calls return nil; the two grids have as many buckets, in the same
order, with the same programmes in each, equal in every field once a zone is
read as its value (kind and offset) and not as the object `Parse` allocated;
they are equal outright, keys included, when both calls start from the same
heap and when the load allocates no zone; with `k` more zones allocated
earlier the zones of the second grid lie `k` cells further on; and loading
the document again over the grid just loaded gives a grid equal in the same
sense, equal outright when the load allocates no zone. (The last two parts say
what reading a zone as its value keeps: every instant and every other field,
and every location but for the cell of an allocated zone.) -/
theorem C14_load_replaces_grid (unmarshal : List UInt8 → Except String xmltv)
    (tzlocal : Int → Int) (g1 g2 : TvGrid) (s : List UInt8) (h1 h2 : Nat)
    (hok : (Load unmarshal tzlocal g1 s h1).exit = Exit.returnedNil) :
    (Load unmarshal tzlocal g2 s h2).exit = Exit.returnedNil ∧
    forgetGrid (Load unmarshal tzlocal g2 s h2).grid
      = forgetGrid (Load unmarshal tzlocal g1 s h1).grid ∧
    (Load unmarshal tzlocal g2 s h1).grid = (Load unmarshal tzlocal g1 s h1).grid ∧
    ((Load unmarshal tzlocal g1 s h1).heap = h1 →
      (Load unmarshal tzlocal g2 s h2).grid = (Load unmarshal tzlocal g1 s h1).grid) ∧
    (∀ k : Nat, (Load unmarshal tzlocal g2 s (h1 + k)).grid
      = shiftGrid k (Load unmarshal tzlocal g1 s h1).grid) ∧
    forgetGrid (Load unmarshal tzlocal (Load unmarshal tzlocal g1 s h1).grid s
        (Load unmarshal tzlocal g1 s h1).heap).grid
      = forgetGrid (Load unmarshal tzlocal g1 s h1).grid ∧
    ((Load unmarshal tzlocal g1 s h1).heap = h1 →
      (Load unmarshal tzlocal (Load unmarshal tzlocal g1 s h1).grid s
        (Load unmarshal tzlocal g1 s h1).heap).grid = (Load unmarshal tzlocal g1 s h1).grid) ∧
    (∀ g : TvGrid,
      (forgetGrid g).map (fun kv => (kv.1.ns, kv.2.map (fun p =>
          (p.Start.ns, p.Stop.ns, p.Length, p.Channel, p.Title, p.SubTitle, p.Description,
            p.Credits, p.Date, p.Categories, p.Rating))))
        = g.map (fun kv => (kv.1.ns, kv.2.map (fun p =>
          (p.Start.ns, p.Stop.ns, p.Length, p.Channel, p.Title, p.SubTitle, p.Description,
            p.Credits, p.Date, p.Categories, p.Rating)))) ∧
      (forgetGrid g).map (fun kv => (kv.1.loc, kv.2.map (fun p => (p.Start.loc, p.Stop.loc))))
        = g.map (fun kv => (kv.1.loc.forget,
            kv.2.map (fun p => (p.Start.loc.forget, p.Stop.loc.forget))))) ∧
    (∀ l : Location, l.forget = l ∨
      ∃ (off : Int) (n : Nat), l = Location.fixed off (some n) ∧
        l.forget = Location.fixed off none) := by
  have hpin1 : ∀ g : TvGrid,
      (forgetGrid g).map (fun kv => (kv.1.ns, kv.2.map (fun p =>
          (p.Start.ns, p.Stop.ns, p.Length, p.Channel, p.Title, p.SubTitle, p.Description,
            p.Credits, p.Date, p.Categories, p.Rating))))
        = g.map (fun kv => (kv.1.ns, kv.2.map (fun p =>
          (p.Start.ns, p.Stop.ns, p.Length, p.Channel, p.Title, p.SubTitle, p.Description,
            p.Credits, p.Date, p.Categories, p.Rating)))) ∧
      (forgetGrid g).map (fun kv => (kv.1.loc, kv.2.map (fun p => (p.Start.loc, p.Stop.loc))))
        = g.map (fun kv => (kv.1.loc.forget,
            kv.2.map (fun p => (p.Start.loc.forget, p.Stop.loc.forget)))) := by
    intro g
    simp only [forgetGrid, List.map_map]
    refine ⟨?_, ?_⟩
    · apply List.map_congr_left
      intro kv _
      simp only [Function.comp, Time.forget, List.map_map, Prod.mk.injEq, true_and]
      apply List.map_congr_left
      intro q _
      rfl
    · apply List.map_congr_left
      intro kv _
      simp only [Function.comp, Time.forget, List.map_map, Prod.mk.injEq, true_and]
      apply List.map_congr_left
      intro q _
      rfl
  have hpin2 : ∀ l : Location, l.forget = l ∨
      ∃ (off : Int) (n : Nat), l = Location.fixed off (some n) ∧
        l.forget = Location.fixed off none := by
    intro l
    cases l with
    | utc => exact Or.inl rfl
    | localZone => exact Or.inl rfl
    | fixed off cell =>
      cases cell with
      | none => exact Or.inl rfl
      | some n => exact Or.inr ⟨off, n, rfl, rfl⟩
  obtain ⟨x, hx, hch⟩ := Load_ok_inv unmarshal tzlocal g1 s h1 hok
  have hexit : ∀ (g : TvGrid) (h : Nat),
      (Load unmarshal tzlocal g s h).exit = Exit.returnedNil :=
    fun g h => (Load_ok unmarshal tzlocal g s h x hx hch).1
  have hforget : ∀ (ga gb : TvGrid) (ha hb : Nat),
      forgetGrid (Load unmarshal tzlocal gb s hb).grid
        = forgetGrid (Load unmarshal tzlocal ga s ha).grid := by
    intro ga gb ha hb
    rcases Nat.le_total ha hb with hle | hle
    · obtain ⟨k, rfl⟩ := Nat.exists_eq_add_of_le hle
      rw [(Load_shift unmarshal tzlocal ga gb s ha k (hexit ga ha)).2, forgetGrid_shiftGrid]
    · obtain ⟨k, rfl⟩ := Nat.exists_eq_add_of_le hle
      rw [(Load_shift unmarshal tzlocal gb ga s hb k (hexit gb hb)).2, forgetGrid_shiftGrid]
  refine ⟨hexit g2 h2, hforget g1 g2 h1 h2, ?_,
    fun hh => (Load_noalloc unmarshal tzlocal g1 g2 s h1 h2 hok hh).1,
    fun k => (Load_shift unmarshal tzlocal g1 g2 s h1 k hok).2, hforget _ _ _ _,
    fun hh => (Load_noalloc unmarshal tzlocal g1 _ s h1 _ hok hh).1, hpin1, hpin2⟩
  have h0 := (Load_shift unmarshal tzlocal g1 g2 s h1 0 hok).2
  rw [shiftGrid_zero] at h0
  exact h0

/-- C14 as amended, on `allocDoc` (zones are allocated: loaded over the sample
grid with five zones on the heap, and over the empty grid with none) and on
`sampleDoc` (no zone is allocated: the grid loaded over `allocOnce.grid` at
heap 5 is the sample grid). -/
theorem C14_load_replaces_grid_witness :
    (Load (decodeAs allocDoc) localUTC [] [] 0).exit = Exit.returnedNil ∧
    (Load (decodeAs allocDoc) localUTC [] [] 0).heap = 4 ∧
    forgetGrid (Load (decodeAs allocDoc) localUTC sampleGrid [] 5).grid
      = forgetGrid (Load (decodeAs allocDoc) localUTC [] [] 0).grid ∧
    (Load (decodeAs sampleDoc) localUTC [] [] 0).exit = Exit.returnedNil ∧
    (Load (decodeAs sampleDoc) localUTC [] [] 0).heap = 0 ∧
    (Load (decodeAs sampleDoc) localUTC allocOnce.grid [] 5).grid
      = (Load (decodeAs sampleDoc) localUTC [] [] 0).grid :=
  ⟨by decide, by decide,
    (C14_load_replaces_grid (decodeAs allocDoc) localUTC [] sampleGrid [] 0 5 (by decide)).2.1,
    by decide, by decide,
    (C14_load_replaces_grid (decodeAs sampleDoc) localUTC [] allocOnce.grid [] 0 5
      (by decide)).2.2.2.1 (by decide)⟩

end Xmltvparse
